import Mathlib

/-!
Virtualpaper: document processing pipeline and rule engine

A shallow embedding of `process/rules.go` (rule matching and action dispatch) and
`process/file.go` (the file processor) together with theorems about them.

Conventions of the embedding

* A Go pointer argument that the callee mutates (`document *models.Document`,
  `job *models.Job`) becomes a value that is passed in and returned.
* A Go result pair `(value, error)` becomes a Lean pair whose second component is
  `Option Error` (`none` is `nil`).
* Calls to `logrus` have no effect on the program state and are left out; wall-clock
  readings (`time.Now()`) are not recorded.
* The Go standard library (`strings.ToLower`, `regexp`, `time.Parse`) is a parameter
  of the embedding (`Library`); every theorem holds for every library.
-/

namespace Virtualpaper

/-! ## Data model -/

/-- Go `error` values. `ErrRecordNotFound` is `storage.ErrRecordNotFound`, every other
error is identified with its message. -/
inductive Error where
  | ErrRecordNotFound
  | text (msg : String)
deriving DecidableEq, Repr

/-- Message of an error, as printed by the `%v` verb. -/
def Error.message : Error → String
  | .ErrRecordNotFound => "record not found"
  | .text msg => msg

/-- The result of `fmt.Errorf(prefix + "%v", err)`. -/
def Errorf (pre : String) (err : Error) : Error :=
  .text (pre ++ err.message)

/-- Go `time.Time`, as the calendar reading in UTC. -/
structure Time where
  year : Int
  month : Nat
  day : Nat
  hour : Nat
  minute : Nat
  second : Nat
  nanosecond : Nat
deriving DecidableEq, Repr

/-- The zero value of `time.Time`: January 1, year 1, 00:00:00 UTC. -/
def Time.zero : Time := ⟨1, 1, 1, 0, 0, 0, 0⟩

/-- Modelled from the spec: `models.Metadata`, a key-id/value-id pair (the type
declaration is not among the sources; `applyRule` sets exactly these two fields). -/
structure Metadata where
  KeyId : Int
  ValueId : Int
deriving DecidableEq, Repr

/-- Modelled from the spec: `models.Tag`, a tag reference (the type declaration is not
among the sources; `applyRule` sets exactly the field `Id`). -/
structure Tag where
  Id : Int
deriving DecidableEq, Repr

/-- Modelled from the spec: `models.Document` (the type declaration is not among the
sources): id, owning user id, display name, extracted content, source filename, content
hash, description, classification date, metadata list and tag list. A Go slice that may
be `nil` is an `Option (List _)`, `none` being `nil`. -/
structure Document where
  Id : Int
  UserId : Int
  Name : String
  Content : String
  Filename : String
  Hash : String
  Description : String
  Date : Time
  Metadata : Option (List Metadata)
  Tags : Option (List Tag)
deriving DecidableEq, Repr

/-- Modelled from the spec: `models.RuleType`, `exact | regex`. The Go type is a string
type, so values other than the two constants exist (`other`). -/
inductive RuleType where
  | ExactRule
  | RegexRule
  | other (name : String)
deriving DecidableEq, Repr

/-- Modelled from the spec: `models.RuleActionType`, the kind of an action. The Go type
is a string type, so values other than the five constants exist (`other`). -/
inductive RuleActionType where
  | RuleActionAddMetadata
  | RuleActionRename
  | RuleActionSetDate
  | RuleActionAddTag
  | RuleActionSetDescription
  | other (name : String)
deriving DecidableEq, Repr

/-- Modelled from the spec: the action of a rule (`rule.Action`), with the fields that
`applyRule` reads. -/
structure RuleActionConfig where
  Action : RuleActionType
  MetadataKeyId : Int
  MetadataValueId : Int
  DateFmt : String
  Tag : Int
deriving DecidableEq, Repr

/-- Modelled from the spec: `models.Rule`: id, owner, type, filter string, one action. -/
structure Rule where
  Id : Int
  UserId : Int
  «Type» : RuleType
  Filter : String
  Action : RuleActionConfig
deriving DecidableEq, Repr

/-! ## The Go standard library, as a parameter -/

/-- The functions of the Go standard library that `rules.go` calls.

* `ToLower` is `strings.ToLower`.
* `Regexp` is the type of compiled regular expressions, `Compile` is `regexp.Compile`
  (with the message of the error when the expression is rejected).
* `FindStringSubmatch re s` is `re.FindStringSubmatch(s)`: the empty list (`nil`) when
  there is no match, else the text of the leftmost match followed by the texts of its
  capturing groups.
* `FindString re s` is `re.FindString(s)`: the text of the leftmost match, or `""`.
* `Parse layout value` is `time.Parse(layout, value)`. -/
structure Library where
  ToLower : String → String
  Regexp : Type
  Compile : String → Except String Regexp
  FindStringSubmatch : Regexp → String → List String
  FindString : Regexp → String → String
  Parse : String → String → Except String Time

/-- Go `strings.Contains` on character sequences: `sub` occurs in `s`. -/
def containsChars : List Char → List Char → Bool
  | [], sub => sub.isEmpty
  | c :: cs, sub => sub.isPrefixOf (c :: cs) || containsChars cs sub

/-- Go `strings.Contains(s, substr)`. -/
def Contains (s substr : String) : Bool :=
  containsChars s.data substr.data

/-- Go `strings.Join(elems, sep)`. -/
def Join (elems : List String) (sep : String) : String :=
  sep.intercalate elems

/-! ## `rules.go` -/

/-- After an opening parenthesis and one further character: is there a closing
parenthesis with no line break before it? -/
def groupCloses : List Char → Bool
  | [] => false
  | c :: cs => c == ')' || (c != '\n' && groupCloses cs)

/-- Right after an opening parenthesis: one character other than a line break, then
`groupCloses`. -/
def groupOpens : List Char → Bool
  | [] => false
  | c :: cs => c != '\n' && groupCloses cs

/-- Does the pattern `\(.+\)` match somewhere in the character sequence: an opening
parenthesis, one or more characters other than a line break, a closing parenthesis. -/
def hasSubMatchSyntax : List Char → Bool
  | [] => false
  | c :: cs => (c == '(' && groupOpens cs) || hasSubMatchSyntax cs

/-- `reRegexHasSubMatch.MatchString(s)` for
`reRegexHasSubMatch = regexp.MustCompile("\\(.+\\)")`. -/
def reRegexHasSubMatch (s : String) : Bool :=
  hasSubMatchSyntax s.data

/-- The Go function `documentMatchesFilter` of `rules.go`. -/
def documentMatchesFilter (lib : Library) (document : Document) (rule : Rule) :
    String × Option Error :=
  match rule.«Type» with
  | .ExactRule =>
    let lowerContent := lib.ToLower document.Content
    let lowerRule := lib.ToLower rule.Filter
    let contains := Contains lowerContent lowerRule
    if contains then (lowerRule, none) else ("", none)
  | .RegexRule =>
    match lib.Compile rule.Filter with
    | .error err => ("", some (Errorf "invalid regex: " (.text err)))
    | .ok re =>
      if reRegexHasSubMatch rule.Filter then
        let «matches» := lib.FindStringSubmatch re document.Content
        match «matches» with
        | [] => ("", none)
        | [_] => ("", none)
        | [_, m1] => (m1, none)
        | _ :: m1 :: _ :: _ => (m1, none)
      else
        (lib.FindString re rule.Filter, none)
  | .other name => ("", some (.text ("unknown rule type: " ++ name)))

/-- The Go function `applyRule` of `rules.go`; returns the document after the call and
the error. -/
def applyRule (lib : Library) (document : Document) (rule : Rule) (matched : String) :
    Document × Option Error :=
  match rule.Action.Action with
  | .RuleActionAddMetadata =>
    let document1 :=
      match document.Metadata with
      | none => { document with Metadata := some [] }
      | some _ => document
    let metadata : Metadata :=
      { KeyId := rule.Action.MetadataKeyId, ValueId := rule.Action.MetadataValueId }
    ({ document1 with Metadata := some (document1.Metadata.getD [] ++ [metadata]) }, none)
  | .RuleActionRename =>
    ({ document with Name := matched }, none)
  | .RuleActionSetDate =>
    match lib.Parse rule.Action.DateFmt matched with
    | .error _ =>
      (document, some (.text ("date format '" ++ rule.Action.DateFmt ++
        "' does not match string '" ++ matched ++ "'")))
    | .ok ts => ({ document with Date := ts }, none)
  | .RuleActionAddTag =>
    let document1 :=
      match document.Tags with
      | none => { document with Tags := some [] }
      | some _ => document
    let tag : Tag := { Id := rule.Action.Tag }
    ({ document1 with Tags := some (document1.Tags.getD [] ++ [tag]) }, none)
  | .RuleActionSetDescription =>
    ({ document with Description := Join [document.Description, matched] "\n\n" }, none)
  | .other name =>
    (document, some (.text ("unknown action: " ++ name)))

/-- The Go function `runRules` of `rules.go`; returns the document after the call and
the error (always `nil`). -/
def runRules (lib : Library) (document : Document) : List Rule → Document × Option Error
  | [] => (document, none)
  | rule :: rest =>
    match documentMatchesFilter lib document rule with
    | (_, some _) => runRules lib document rest
    | (matched, none) =>
      if matched ≠ "" then
        runRules lib (applyRule lib document rule matched).1 rest
      else
        runRules lib document rest

/-! ## `file.go`: the collaborators

The file processor works on a file system, a Document Store, a Process/Job ledger and two
external tools (image conversion and text recognition). They are gathered in a `World`.
Every call on a collaborator appends one `Event` to the trace of the world, and the call
number `n` fails when `fault n` holds, so that every schedule of failures is a world. -/

/-- Modelled from the spec: `models.ProcessStep`, the step identifier of a process item
(compute-hash, generate-thumbnail, parse-content; extensible). -/
inductive ProcessStep where
  | ProcessHash
  | ProcessThumbnail
  | ProcessParseContent
  | other (name : String)
deriving DecidableEq, Repr

/-- Modelled from the spec: `models.ProcessItem`, document id and step identifier (the
creation timestamp is not recorded). -/
structure ProcessItem where
  DocumentId : Int
  Step : ProcessStep
deriving DecidableEq, Repr

/-- Modelled from the spec: `models.JobStatus`, awaiting / finished / failure. -/
inductive JobStatus where
  | JobAwaiting
  | JobFinished
  | JobFailure
deriving DecidableEq, Repr

/-- Modelled from the spec: `models.Job`, document id, message and status (the start and
stop timestamps are not recorded). -/
structure Job where
  DocumentId : Int
  Message : String
  Status : JobStatus
deriving DecidableEq, Repr

/-- An open file (`*os.File`): the name it was opened with and the contents it gives
access to. -/
structure File where
  name : String
  content : String
deriving DecidableEq, Repr

/-- A call on a collaborator, with its arguments. -/
inductive Event where
  | GetDocumentPendingSteps (documentId : Int)
  | StartProcessItem (item : ProcessItem) (label : String)
  | MarkProcessingDone (item : ProcessItem) (ok : Bool)
  | JobCreate (documentId : Int) (job : Job)
  | JobUpdate (job : Job)
  | DocumentCreate (document : Document)
  | DocumentUpdate (document : Document)
  | DocumentGetByHash (hash : String)
  | SetDocumentContent (documentId : Int) (text : String)
  | Open (path : String)
  | Close (name : String)
  | Rename (oldpath newpath : String)
  | Remove (path : String)
  | GetHash (name : String)
  | ConvertImageCommand (args : List String)
  | SetImage (path : String)
  | Text
deriving DecidableEq, Repr

/-- The state of the collaborators.

* `files`: the file system, the contents of the file at each path.
* `documents`: the records of the Document Store.
* `pending`: the answer of the ledger to the pending-steps query of a document.
* `startJob`: the job record that the ledger returns when a process item is started.
* `recognized`: the text that recognition finds in the image at a path.
* `trace`: the calls made so far, oldest first.
* `fault`: the calls that fail, by their position in the trace. -/
structure World where
  files : String → Option String
  documents : List Document
  pending : Int → List ProcessItem
  startJob : ProcessItem → String → Job
  recognized : String → String
  trace : List Event
  fault : Nat → Bool

/-- Configuration and pure helpers of the process package: the directories of
`config.C.Processing`, `path.Join` on two elements, and the digest computed by the
content hasher. -/
structure Env where
  DocumentsDir : String
  PreviewsDir : String
  TmpDir : String
  Join : String → String → String
  digest : String → String

/-- The error of a call that the oracle makes fail. -/
def faultError : Error := .text "input/output error"

/-- Does the oracle make the next call fail? -/
def World.fails (w : World) : Bool := w.fault w.trace.length

/-- Append a call to the trace. -/
def World.record (w : World) (e : Event) : World :=
  { w with trace := w.trace ++ [e] }

/-- Modelled from the spec: `JobStore.GetDocumentPendingSteps(documentId)`, the ledger
query for the pending steps of a document. -/
def GetDocumentPendingSteps (w : World) (documentId : Int) :
    Except Error (List ProcessItem) × World :=
  (if w.fails then .error faultError else .ok (w.pending documentId),
    w.record (.GetDocumentPendingSteps documentId))

/-- Modelled from the spec: `JobStore.StartProcessItem(item, label)`, which starts a
process item and returns its job. -/
def StartProcessItem (w : World) (item : ProcessItem) (label : String) :
    Except Error Job × World :=
  (if w.fails then .error faultError else .ok (w.startJob item label),
    w.record (.StartProcessItem item label))

/-- Modelled from the spec: `JobStore.MarkProcessingDone(item, ok)`, which records the
completion outcome of a process item. -/
def MarkProcessingDone (w : World) (item : ProcessItem) (ok : Bool) : Option Error × World :=
  (if w.fails then some faultError else none, w.record (.MarkProcessingDone item ok))

/-- Modelled from the spec: `JobStore.Create(documentId, job)`. -/
def JobCreate (w : World) (documentId : Int) (job : Job) : Option Error × World :=
  (if w.fails then some faultError else none, w.record (.JobCreate documentId job))

/-- Modelled from the spec: `JobStore.Update(job)`. -/
def JobUpdate (w : World) (job : Job) : Option Error × World :=
  (if w.fails then some faultError else none, w.record (.JobUpdate job))

/-- Modelled from the spec: `DocumentStore.Create(doc)`; a successful call adds the
record, a failed call leaves the store as it was. -/
def DocumentCreate (w : World) (document : Document) : Option Error × World :=
  if w.fails then (some faultError, w.record (.DocumentCreate document))
  else (none, { w.record (.DocumentCreate document) with
                  documents := w.documents ++ [document] })

/-- Modelled from the spec: `DocumentStore.Update(doc)`; a successful call replaces the
record with the id of the document, a failed call leaves the store as it was. -/
def DocumentUpdate (w : World) (document : Document) : Option Error × World :=
  if w.fails then (some faultError, w.record (.DocumentUpdate document))
  else (none, { w.record (.DocumentUpdate document) with
                  documents := w.documents.map
                    (fun d => if d.Id = document.Id then document else d) })

/-- Modelled from the spec: `DocumentStore.GetByHash(hash)`, the document with the hash,
or the error `ErrRecordNotFound`. -/
def DocumentGetByHash (w : World) (hash : String) : Option Document × Option Error × World :=
  if w.fails then (none, some faultError, w.record (.DocumentGetByHash hash))
  else
    match w.documents.find? (fun d => d.Hash = hash) with
    | some d => (some d, none, w.record (.DocumentGetByHash hash))
    | none => (none, some .ErrRecordNotFound, w.record (.DocumentGetByHash hash))

/-- Modelled from the spec: `DocumentStore.SetDocumentContent(id, text)`. -/
def SetDocumentContent (w : World) (documentId : Int) (text : String) :
    Option Error × World :=
  if w.fails then (some faultError, w.record (.SetDocumentContent documentId text))
  else (none, { w.record (.SetDocumentContent documentId text) with
                  documents := w.documents.map
                    (fun d => if d.Id = documentId then { d with Content := text } else d) })

/-- Go `os.Open` and `os.OpenFile` for reading: fails when there is no file at the path. -/
def osOpen (w : World) (path : String) : Except Error File × World :=
  (if w.fails then .error faultError
    else
      match w.files path with
      | some content => .ok ⟨path, content⟩
      | none => .error (.text ("open " ++ path ++ ": no such file or directory")),
    w.record (.Open path))

/-- Go `file.Close()`. -/
def fileClose (w : World) (file : File) : World :=
  w.record (.Close file.name)

/-- The file system after the file at `oldpath` has been moved to `newpath`. -/
def renamed (files : String → Option String) (oldpath newpath : String) :
    String → Option String :=
  fun p => if p = newpath then files oldpath else if p = oldpath then none else files p

/-- Go `os.Rename(oldpath, newpath)`: fails when there is no file at `oldpath`; a failed
call leaves the file system as it was. -/
def osRename (w : World) (oldpath newpath : String) : Option Error × World :=
  if w.fails then (some faultError, w.record (.Rename oldpath newpath))
  else
    match w.files oldpath with
    | none =>
      (some (.text ("rename " ++ oldpath ++ " " ++ newpath ++ ": no such file or directory")),
        w.record (.Rename oldpath newpath))
    | some _ =>
      (none, { w.record (.Rename oldpath newpath) with
                 files := renamed w.files oldpath newpath })

/-- Go `os.Remove(path)`. -/
def osRemove (w : World) (path : String) : Option Error × World :=
  if w.fails then (some faultError, w.record (.Remove path))
  else
    match w.files path with
    | none =>
      (some (.text ("remove " ++ path ++ ": no such file or directory")),
        w.record (.Remove path))
    | some _ =>
      (none, { w.record (.Remove path) with
                 files := fun p => if p = path then none else w.files p })

/-- Modelled from the spec: `getHash(file)`, the content hasher: the digest of the bytes
of the file. -/
def getHash (env : Env) (w : World) (file : File) : String × Option Error × World :=
  if w.fails then ("", some faultError, w.record (.GetHash file.name))
  else (env.digest file.content, none, w.record (.GetHash file.name))

/-- The call `imagick.ConvertImageCommand(args)`; the image that the tool writes is not
part of the file system of the world. -/
def ConvertImageCommand (w : World) (args : List String) : Option Error × World :=
  (if w.fails then some faultError else none, w.record (.ConvertImageCommand args))

/-- The call `client.SetImage(path)` of the text recognition client. -/
def SetImage (w : World) (path : String) : Option Error × World :=
  (if w.fails then some faultError else none, w.record (.SetImage path))

/-- The call `client.Text()` of the text recognition client, for the image set before. -/
def Text (w : World) (imageFile : String) : String × Option Error × World :=
  if w.fails then ("", some faultError, w.record .Text)
  else (w.recognized imageFile, none, w.record .Text)

/-! ## `file.go`: the file processor

`fp.document` is a pointer that is not `nil` wherever the step functions are called (the
caller has set it); the step functions take the document it points to as `document` and
return it as it is after the call. -/

/-- The state of a `fileProcessor`: the idle flag of its task, the current document, the
path of the current file and the two open files. -/
structure FileProcessor where
  idle : Bool
  document : Option Document
  file : String
  rawFile : Option File
  tempFile : Option File
deriving DecidableEq, Repr

/-- Modelled from the spec: `fileOp`, a raw file path (new file) or an existing document
(reprocess request); the type declaration is not among the sources. -/
structure fileOp where
  document : Option Document
  file : String
deriving DecidableEq, Repr

/-- The processor state that `newFileProcessor` sets up. -/
def newFileProcessor : FileProcessor :=
  { idle := true, document := none, file := "", rawFile := none, tempFile := none }

/-- Go `strings.HasSuffix(s, suffix)`. -/
def HasSuffix (s suffix : String) : Bool :=
  suffix.data.isSuffixOf s.data

/-- The file component of Go `path.Split(p)`: what follows the final slash. -/
def splitFile (p : String) : String :=
  String.mk (p.data.reverse.takeWhile (fun c => c != '/')).reverse

/-- The Go method `persistProcess` of `file.go`. -/
def persistProcess (w : World) (process : ProcessItem) (job : Job) : World :=
  let w1 := (MarkProcessingDone w process (decide (job.Status = .JobFinished))).2
  (JobUpdate w1 job).2

/-- The Go method `persistJob` of `file.go`. -/
def persistJob (w : World) (job : Job) : World :=
  (JobUpdate w job).2

/-- The Go method `updateHash` of `file.go`; `doc` and `fp.document` are the same pointer
at the call, here `document`. Returns the document after the call, the error and the
world. The deferred `persistProcess` runs on every return after the process item was
started, with the job as it is at that return. -/
def updateHash (env : Env) (w : World) (document : Document) (file : File) :
    Document × Option Error × World :=
  let process : ProcessItem := { DocumentId := document.Id, Step := .ProcessHash }
  match StartProcessItem w process "calculate hash" with
  | (.error err, w1) => (document, some (Errorf "persist process item: " err), w1)
  | (.ok job, w1) =>
    match getHash env w1 file with
    | (_, some err, w2) =>
      (document, some err, persistProcess w2 process { job with Status := .JobFailure })
    | (hash, none, w2) =>
      if hash ≠ document.Hash then
        let oldName := file.name
        match osRename w2 oldName (env.Join env.DocumentsDir hash) with
        | (some err, w3) =>
          (document,
            some (Errorf ("rename file (doc " ++ toString document.Id ++ ") by old hash: ") err),
            persistProcess w3 process { job with Status := .JobFailure })
        | (none, w3) =>
          let document1 := { document with Hash := hash }
          match DocumentUpdate w3 document1 with
          | (some err, w4) =>
            (document1, some (Errorf "save updated document: " err),
              persistProcess w4 process { job with Status := .JobFailure })
          | (none, w4) =>
            (document1, none, persistProcess w4 process { job with Status := .JobFinished })
      else
        (document, none,
          persistProcess w2 process
            { job with Status := .JobFinished, Message := "hash: no change" })

/-- The Go method `generateThumbnail` of `file.go`. -/
def generateThumbnail (env : Env) (w : World) (document : Document) (file : File) :
    Option Error × World :=
  let process : ProcessItem := { DocumentId := document.Id, Step := .ProcessThumbnail }
  match StartProcessItem w process "calculate hash" with
  | (.error err, w1) => (some (Errorf "persist process item: " err), w1)
  | (.ok job, w1) =>
    let output := env.Join env.PreviewsDir (document.Hash ++ ".png")
    match ConvertImageCommand w1
        ["convert", "-thumbnail", "x500", "-background", "white", "-alpha", "remove",
          file.name ++ "[0]", output] with
    | (some err, w2) =>
      (some (Errorf "call imagick: " err),
        persistProcess w2 process
          { job with Status := .JobFailure, Message := job.Message ++ "; " ++ err.message })
    | (none, w2) =>
      (none, persistProcess w2 process { job with Status := .JobFinished })

/-- The second half of `parseContent`: text recognition on the image file. -/
def recognizeContent (w : World) (document : Document) (imageFile : String) :
    Document × Option Error × World :=
  let job : Job :=
    { DocumentId := document.Id, Message := "Parse content with tesseract",
      Status := .JobAwaiting }
  let w1 := (JobCreate w document.Id job).2
  match SetImage w1 imageFile with
  | (some err, w2) =>
    (document, some (Errorf "set ocr image source: " err), persistJob w2 job)
  | (none, w2) =>
    match Text w2 imageFile with
    | (_, some err, w3) =>
      (document, some (Errorf "parse document text: " err),
        persistJob w3
          { job with Message := job.Message ++ "; " ++ err.message, Status := .JobFailure })
    | (text, none, w3) =>
      let document1 := { document with Content := text }
      match SetDocumentContent w3 document.Id text with
      | (some err, w4) =>
        (document1, some (Errorf "save document content: " err),
          persistJob w4
            { job with
                Message := job.Message ++ "; " ++ "save document content: " ++ err.message,
                Status := .JobFailure })
      | (none, w4) => (document1, none, persistJob w4 { job with Status := .JobFinished })

/-- The Go method `parseContent` of `file.go`; `file` is `fp.file`. -/
def parseContent (lib : Library) (env : Env) (w : World) (file : String)
    (document : Document) : Document × Option Error × World :=
  if HasSuffix (lib.ToLower file) "pdf" then
    let job : Job :=
      { DocumentId := document.Id, Message := "Render image from pdf content",
        Status := .JobAwaiting }
    let w1 := (JobCreate w document.Id job).2
    let imageFile := env.Join env.TmpDir (document.Hash ++ ".png")
    match ConvertImageCommand w1
        ["convert", "-density", "300", file, "-depth", "8", imageFile] with
    | (some err, w2) =>
      (document, some err,
        persistJob w2
          { job with Message := job.Message ++ "; " ++ err.message, Status := .JobFailure })
    | (none, w2) =>
      recognizeContent (persistJob w2 { job with Status := .JobFinished }) document imageFile
  else
    recognizeContent w document ""

/-- The loop over the pending steps in `processDocument`. The flag of the result tells
whether the loop ran to its end (`true`) or the function returned from inside the loop
(`false`). -/
def runSteps (lib : Library) (env : Env) (fileName : String) (file : File) :
    World → Document → List ProcessItem → Document × World × Bool
  | w, document, [] => (document, w, true)
  | w, document, step :: rest =>
    match step.Step with
    | .ProcessHash =>
      match updateHash env w document file with
      | (document1, some _, w1) => (document1, w1, false)
      | (document1, none, w1) => runSteps lib env fileName file w1 document1 rest
    | .ProcessThumbnail =>
      match generateThumbnail env w document file with
      | (some _, w1) => (document, w1, false)
      | (none, w1) => runSteps lib env fileName file w1 document rest
    | .ProcessParseContent =>
      match parseContent lib env w fileName document with
      | (document1, some _, w1) => (document1, w1, false)
      | (document1, none, w1) => runSteps lib env fileName file w1 document1 rest
    | .other _ => runSteps lib env fileName file w document rest

/-- The Go method `processDocument` of `file.go`. It is called with `fp.document` set;
with `fp.document = nil` the Go code stops on a nil dereference, here nothing is done. -/
def processDocument (lib : Library) (env : Env) (fp : FileProcessor) (w : World) :
    FileProcessor × World :=
  match fp.document with
  | none => (fp, w)
  | some document =>
    match GetDocumentPendingSteps w document.Id with
    | (.error _, w1) => (fp, w1)
    | (.ok pendingSteps, w1) =>
      match osOpen w1 (env.Join env.DocumentsDir document.Hash) with
      | (.error _, w2) => (fp, w2)
      | (.ok file, w2) =>
        match runSteps lib env fp.file file w2 document pendingSteps with
        | (document1, w3, false) => ({ fp with document := some document1 }, w3)
        | (document1, w3, true) => ({ fp with document := some document1 }, fileClose w3 file)

/-- The Go method `cleanup` of `file.go`. -/
def cleanup (fp : FileProcessor) (w : World) : FileProcessor × World :=
  let w1 :=
    match fp.rawFile with
    | some raw => fileClose w raw
    | none => w
  let w2 :=
    match fp.tempFile with
    | some temp => (osRemove (fileClose w1 temp) temp.name).2
    | none => w1
  ({ idle := true, document := none, file := "", rawFile := none, tempFile := none }, w2)

/-- The Go method `isDuplicate` of `file.go`; `rawFile` is `fp.rawFile`. -/
def isDuplicate (env : Env) (w : World) (rawFile : File) : Bool × Option Error × World :=
  match getHash env w rawFile with
  | (_, some err, w1) => (false, some err, w1)
  | (hash, none, w1) =>
    match DocumentGetByHash w1 hash with
    | (_, some err, w2) =>
      if err = .ErrRecordNotFound then (false, none, w2) else (false, some err, w2)
    | (some _, none, w2) => (true, none, w2)
    | (none, none, w2) => (false, none, w2)

/-- The Go method `createNewDocumentRecord` of `file.go`; returns the new value of
`fp.document`, the error and the world. -/
def createNewDocumentRecord (env : Env) (fp : FileProcessor) (w : World) (rawFile : File) :
    Option Document × Option Error × World :=
  let fileName := splitFile fp.file
  let doc : Document :=
    { Id := 0, UserId := 5, Name := fileName, Content := "", Filename := fileName,
      Hash := "", Description := "", Date := Time.zero, Metadata := none, Tags := none }
  match getHash env w rawFile with
  | (_, some err, w1) => (fp.document, some (Errorf "get hash: " err), w1)
  | (hash, none, w1) =>
    let doc1 := { doc with Hash := hash }
    match DocumentCreate w1 doc1 with
    | (some err, w2) => (fp.document, some (Errorf "store document: " err), w2)
    | (none, w2) => (some doc1, none, w2)

/-- The Go method `processFile` of `file.go`; the deferred `cleanup` runs on every
return. -/
def processFile (lib : Library) (env : Env) (fp : FileProcessor) (w : World) :
    FileProcessor × World :=
  let fp1 := { fp with idle := false }
  match osOpen w fp1.file with
  | (.error _, w1) => cleanup { fp1 with rawFile := none } w1
  | (.ok rawFile, w1) =>
    let fp2 := { fp1 with rawFile := some rawFile }
    match isDuplicate env w1 rawFile with
    | (true, _, w2) => cleanup fp2 w2
    | (false, some _, w2) => cleanup fp2 w2
    | (false, none, w2) =>
      match createNewDocumentRecord env fp2 w2 rawFile with
      | (_, some _, w3) => cleanup fp2 w3
      | (none, none, w3) => cleanup fp2 w3
      | (some document, none, w3) =>
        match generateThumbnail env w3 document rawFile with
        | (some _, w4) => cleanup { fp2 with document := some document } w4
        | (none, w4) =>
          match parseContent lib env w4 fp2.file document with
          | (document1, _, w5) => cleanup { fp2 with document := some document1 } w5

/-- The Go method `process` of `file.go`. -/
def process (lib : Library) (env : Env) (fp : FileProcessor) (w : World) (op : fileOp) :
    FileProcessor × World :=
  if op.document = none ∧ op.file ≠ "" then
    processFile lib env fp w
  else if op.document ≠ none then
    processDocument lib env { fp with document := op.document } w
  else
    (fp, w)

/-! ## A reference library

A small instance of `Library`, used to evaluate the embedding on concrete inputs:
ASCII lower-casing, a backtracking matcher (leftmost match, first alternative first,
greedy repetition) for a fragment of the regular expression syntax, and a parser for
date layouts made of `2006`, `01`, `02` and punctuation. -/

/-- Syntax tree of the regular expressions that the reference library accepts. -/
inductive Re where
  | lit (c : Char)
  | digit
  | any
  | seq (a b : Re)
  | alt (a b : Re)
  | star (a : Re)
  | plus (a : Re)
  | opt (a : Re)
  | group (idx : Nat) (a : Re)
  | nothing
deriving DecidableEq, Repr

/-- Texts captured so far, one slot per capturing group. -/
abbrev Captures := List (Option (List Char))

/-- Backtracking matcher in continuation-passing style: match `re` at the start of the
input and hand the rest of the input and the captures to the continuation. -/
def Re.run : Nat → Re → List Char → Captures →
    (List Char → Captures → Option (List Char × Captures)) → Option (List Char × Captures)
  | 0, _, _, _, _ => none
  | _ + 1, .nothing, s, caps, k => k s caps
  | _ + 1, .lit c, s, caps, k =>
    match s with
    | x :: xs => if x = c then k xs caps else none
    | [] => none
  | _ + 1, .digit, s, caps, k =>
    match s with
    | x :: xs => if x.isDigit then k xs caps else none
    | [] => none
  | _ + 1, .any, s, caps, k =>
    match s with
    | x :: xs => if x = '\n' then none else k xs caps
    | [] => none
  | n + 1, .seq a b, s, caps, k => Re.run n a s caps (fun s1 c1 => Re.run n b s1 c1 k)
  | n + 1, .alt a b, s, caps, k =>
    match Re.run n a s caps k with
    | some r => some r
    | none => Re.run n b s caps k
  | n + 1, .star a, s, caps, k =>
    match Re.run n a s caps
        (fun s1 c1 => if s1.length < s.length then Re.run n (.star a) s1 c1 k else none) with
    | some r => some r
    | none => k s caps
  | n + 1, .plus a, s, caps, k => Re.run n a s caps (fun s1 c1 => Re.run n (.star a) s1 c1 k)
  | n + 1, .opt a, s, caps, k =>
    match Re.run n a s caps k with
    | some r => some r
    | none => k s caps
  | n + 1, .group idx a, s, caps, k =>
    Re.run n a s caps
      (fun s1 c1 => k s1 (c1.set (idx - 1) (some (s.take (s.length - s1.length)))))

/-- Close a sequence, and the alternation it is the last branch of. -/
def finishBranch (left : Option Re) (items : List Re) : Re :=
  let body := items.foldr Re.seq Re.nothing
  match left with
  | none => body
  | some l => Re.alt l body

/-- Apply a repetition operator to the last item of a sequence. -/
def repeatLast (op : Re → Re) (items : List Re) : Option (List Re) :=
  match items.reverse with
  | [] => none
  | r :: front => some (front.reverse ++ [op r])

/-- Parser of the pattern syntax: reads up to the end of the input or to an unmatched
closing parenthesis; returns the tree, the unread input and the next group index. -/
def parseRe : Nat → List Char → Nat → Option Re → List Re → Option (Re × List Char × Nat)
  | 0, _, _, _, _ => none
  | _ + 1, [], gi, left, items => some (finishBranch left items, [], gi)
  | n + 1, c :: cs, gi, left, items =>
    if c = ')' then some (finishBranch left items, c :: cs, gi)
    else if c = '|' then parseRe n cs gi (some (finishBranch left items)) []
    else if c = '(' then
      match parseRe n cs (gi + 1) none [] with
      | some (r, ')' :: rest, gi1) => parseRe n rest gi1 left (items ++ [Re.group gi r])
      | _ => none
    else if c = '*' then (repeatLast Re.star items).bind (parseRe n cs gi left)
    else if c = '+' then (repeatLast Re.plus items).bind (parseRe n cs gi left)
    else if c = '?' then (repeatLast Re.opt items).bind (parseRe n cs gi left)
    else if c = '.' then parseRe n cs gi left (items ++ [Re.any])
    else if c = '\\' then
      match cs with
      | 'd' :: rest => parseRe n rest gi left (items ++ [Re.digit])
      | x :: rest =>
        if x.isAlphanum then none else parseRe n rest gi left (items ++ [Re.lit x])
      | [] => none
    else if c = '[' ∨ c = ']' ∨ c = '{' ∨ c = '}' ∨ c = '^' ∨ c = '$' then none
    else parseRe n cs gi left (items ++ [Re.lit c])

/-- A compiled expression of the reference library: the tree and its number of groups. -/
structure RefRegexp where
  re : Re
  groups : Nat
deriving DecidableEq, Repr

/-- Compilation in the reference library. -/
def refCompile (pattern : String) : Except String RefRegexp :=
  match parseRe (pattern.length + 1) pattern.data 1 none [] with
  | some (r, [], gi) => .ok ⟨r, gi - 1⟩
  | _ => .error ("error parsing regexp: " ++ pattern)

/-- Leftmost match: try the start positions from left to right. -/
def refFind (rx : RefRegexp) : Nat → List Char → Option (List Char × Captures)
  | fuel, [] =>
    (Re.run fuel rx.re [] (List.replicate rx.groups none) (fun r c => some (r, c))).map
      (fun rc => ([], rc.2))
  | fuel, c :: cs =>
    match Re.run fuel rx.re (c :: cs) (List.replicate rx.groups none)
        (fun r caps => some (r, caps)) with
    | some (rest, caps) => some ((c :: cs).take ((c :: cs).length - rest.length), caps)
    | none => refFind rx fuel cs

/-- Fuel that the matcher is given for an input. -/
def refFuel (s : String) : Nat := 8 * (s.length + 2)

/-- `FindStringSubmatch` in the reference library. -/
def refFindStringSubmatch (rx : RefRegexp) (s : String) : List String :=
  match refFind rx (refFuel s) s.data with
  | none => []
  | some (full, caps) => String.mk full :: caps.map (fun c => String.mk (c.getD []))

/-- `FindString` in the reference library. -/
def refFindString (rx : RefRegexp) (s : String) : String :=
  match refFind rx (refFuel s) s.data with
  | none => ""
  | some (full, _) => String.mk full

/-- Lower-casing of the ASCII letters. -/
def refToLower (s : String) : String :=
  String.mk (s.data.map Char.toLower)

/-- Read exactly `k` decimal digits. -/
def readDigits : Nat → List Char → Nat → Option (Nat × List Char)
  | 0, cs, acc => some (acc, cs)
  | k + 1, c :: cs, acc =>
    if c.isDigit then readDigits k cs (10 * acc + (c.toNat - '0'.toNat)) else none
  | _ + 1, [], _ => none

/-- Number of days of a month of the Gregorian calendar. -/
def daysIn (year : Int) (month : Nat) : Nat :=
  if month = 2 then
    (if year % 4 = 0 ∧ (year % 100 ≠ 0 ∨ year % 400 = 0) then 29 else 28)
  else if month = 4 ∨ month = 6 ∨ month = 9 ∨ month = 11 then 30
  else 31

/-- Read a value along a layout made of `2006` (year), `01` (month), `02` (day) and
punctuation; letters and other digits in the layout are not supported. -/
def parseLayout : Nat → List Char → List Char → Time → Option Time
  | 0, _, _, _ => none
  | _ + 1, [], [], t => if 1 ≤ t.day ∧ t.day ≤ daysIn t.year t.month then some t else none
  | _ + 1, [], _ :: _, _ => none
  | n + 1, c :: layout, value, t =>
    if c = '2' ∧ layout.take 3 = ['0', '0', '6'] then
      match readDigits 4 value 0 with
      | some (y, rest) => parseLayout n (layout.drop 3) rest { t with year := y }
      | none => none
    else if c = '0' ∧ layout.take 1 = ['1'] then
      match readDigits 2 value 0 with
      | some (m, rest) =>
        if 1 ≤ m ∧ m ≤ 12 then parseLayout n (layout.drop 1) rest { t with month := m }
        else none
      | none => none
    else if c = '0' ∧ layout.take 1 = ['2'] then
      match readDigits 2 value 0 with
      | some (d, rest) => parseLayout n (layout.drop 1) rest { t with day := d }
      | none => none
    else if c.isAlphanum then none
    else
      match value with
      | v :: rest => if v = c then parseLayout n layout rest t else none
      | [] => none

/-- `time.Parse` in the reference library; fields absent from the layout keep the values
of January 1, year 0, 00:00:00 UTC. -/
def refParse (layout value : String) : Except String Time :=
  match parseLayout (layout.length + 1) layout.data value.data ⟨0, 1, 1, 0, 0, 0, 0⟩ with
  | some t => .ok t
  | none => .error ("parsing time \"" ++ value ++ "\" as \"" ++ layout ++ "\"")

/-- The reference library. -/
def refLib : Library where
  ToLower := refToLower
  Regexp := RefRegexp
  Compile := refCompile
  FindStringSubmatch := refFindStringSubmatch
  FindString := refFindString
  Parse := refParse

/-- A document with the given content and no other data. -/
def contentDocument (content : String) : Document :=
  { Id := 1, UserId := 1, Name := "", Content := content, Filename := "", Hash := "",
    Description := "", Date := Time.zero, Metadata := none, Tags := none }

/-- A rule with the given type and filter, and a rename action. -/
def filterRule (kind : RuleType) (filter : String) : Rule :=
  { Id := 1, UserId := 1, «Type» := kind, Filter := filter,
    Action := { Action := .RuleActionRename, MetadataKeyId := 0, MetadataValueId := 0,
                DateFmt := "", Tag := 0 } }

/-- A rule with an exact filter that matches every document with content `x`, and the
given action. -/
def actionRule (action : RuleActionConfig) : Rule :=
  { Id := 1, UserId := 1, «Type» := .ExactRule, Filter := "x", Action := action }

/-- A reference configuration: three directories, joining with a slash, and a digest
that tags the contents. -/
def refEnv : Env where
  DocumentsDir := "documents"
  PreviewsDir := "previews"
  TmpDir := "tmp"
  Join := fun dir name => dir ++ "/" ++ name
  digest := fun content => "sha:" ++ content

/-- The job that the reference ledger returns for a started process item. -/
def refStartJob (item : ProcessItem) (label : String) : Job :=
  { DocumentId := item.DocumentId, Message := label, Status := .JobAwaiting }

/-- A stored document with id 1 and the given hash. -/
def storedDocument (hash : String) : Document :=
  { contentDocument "" with Hash := hash }

/-- A world with one stored document, of hash `old`, whose file `documents/old` holds the
given contents, one pending compute-hash step, an empty trace and the given faults. -/
def refWorld (content : String) (fault : Nat → Bool) : World where
  files := fun p => if p = "documents/old" then some content else none
  documents := [storedDocument "old"]
  pending := fun _ => [{ DocumentId := 1, Step := .ProcessHash }]
  startJob := refStartJob
  recognized := fun _ => ""
  trace := []
  fault := fault

/-- The completion outcomes recorded in a list of calls, oldest first. -/
def marks : List Event → List (ProcessItem × Bool)
  | [] => []
  | .MarkProcessingDone item ok :: rest => (item, ok) :: marks rest
  | _ :: rest => marks rest

/-- The calls that a run added to the trace of the world `w`, `w1` being the world after
the run. -/
def newCalls (w w1 : World) : List Event :=
  w1.trace.drop w.trace.length

/-- The expression compiled from a pattern by the reference library (the empty expression
when the pattern is rejected). -/
def refCompiled (pattern : String) : RefRegexp :=
  match refCompile pattern with
  | .ok rx => rx
  | .error _ => ⟨Re.nothing, 0⟩

/-- The rule fails on the document: the match returns an error (a regular expression
that does not compile, an unknown rule type), or the action, applied with the non-empty
match, returns an error (an unknown action kind, a date that does not fit the format). -/
def ruleFails (lib : Library) (document : Document) (rule : Rule) : Prop :=
  (documentMatchesFilter lib document rule).2 ≠ none ∨
  ((documentMatchesFilter lib document rule).1 ≠ "" ∧
    (applyRule lib document rule (documentMatchesFilter lib document rule).1).2 ≠ none)

instance (lib : Library) (document : Document) (rule : Rule) :
    Decidable (ruleFails lib document rule) :=
  inferInstanceAs (Decidable (_ ∨ _))

/-- An action configuration of the given kind. -/
def actionOf (kind : RuleActionType) (keyId valueId : Int) (dateFmt : String) (tag : Int) :
    RuleActionConfig :=
  { Action := kind, MetadataKeyId := keyId, MetadataValueId := valueId, DateFmt := dateFmt,
    Tag := tag }

/-- The run from the world `w` to the world `w1` only added calls, and every call it
added is one of the `allowed` calls. -/
def Within (allowed : Event → Bool) (w w1 : World) : Prop :=
  ∃ calls, w1.trace = w.trace ++ calls ∧ ∀ e ∈ calls, allowed e = true

/-- The calls of the content extraction: job records, image conversion, text
recognition, and the content of the document in the store. -/
def extractionCall : Event → Bool
  | .JobCreate _ _ => true
  | .JobUpdate _ => true
  | .ConvertImageCommand _ => true
  | .SetImage _ => true
  | .Text => true
  | .SetDocumentContent _ _ => true
  | _ => false

/-- The hashes of the records of the Document Store, in the order of the records. -/
def storedHashes (w : World) : List String :=
  w.documents.map (fun d => d.Hash)

/-- The calls of a run of the new-file path that stops at the duplicate check: opening,
hashing and closing the file, the lookup by hash, and the removal of a temporary file. -/
def lookupCall : Event → Bool
  | .Open _ => true
  | .Close _ => true
  | .Remove _ => true
  | .GetHash _ => true
  | .DocumentGetByHash _ => true
  | _ => false

/-- Every call but the closing of a file. -/
def notClose : Event → Bool
  | .Close _ => false
  | _ => true

/-- A world with an empty Document Store and one scanned image, `inbox/scan.png`, in
which text recognition reads `invoice-4471`; empty trace and the given faults. -/
def scanWorld (fault : Nat → Bool) : World where
  files := fun p => if p = "inbox/scan.png" then some "scanned bytes" else none
  documents := []
  pending := fun _ => []
  startJob := refStartJob
  recognized := fun _ => "invoice-4471"
  trace := []
  fault := fault

/-- A processor that has been given the file `inbox/scan.png`. -/
def scanProcessor : FileProcessor :=
  { newFileProcessor with file := "inbox/scan.png" }

/-! ## Theorems on `rules.go` -/

theorem containsChars_iff_occurs (s sub : List Char) :
    containsChars s sub = true ↔ sub <:+: s := by
  induction s with
  | nil => simp [containsChars, List.isEmpty_iff]
  | cons c cs ih =>
    simp only [containsChars, Bool.or_eq_true, ih, List.infix_cons_iff,
      List.isPrefixOf_iff_prefix]

theorem Contains_iff_occurs (s substr : String) :
    Contains s substr = true ↔ substr.data <:+: s.data :=
  containsChars_iff_occurs s.data substr.data

/-- C1: for a regex rule whose filter compiles and contains capturing-group syntax,
`documentMatchesFilter` returns no error and the text of the first captured group of the
first match of the filter in the document content (the second entry of the result of
`FindStringSubmatch`), also when several groups were captured; it returns the empty
string when there is no match or the match carries no captured group. -/
theorem documentMatchesFilter_regex_submatch (lib : Library) (document : Document)
    (rule : Rule) (re : lib.Regexp) (hType : rule.«Type» = .RegexRule)
    (hCompile : lib.Compile rule.Filter = .ok re)
    (hSyntax : reRegexHasSubMatch rule.Filter = true) :
    documentMatchesFilter lib document rule =
        ((lib.FindStringSubmatch re document.Content).getD 1 "", none) ∧
      (∀ whole first rest,
        lib.FindStringSubmatch re document.Content = whole :: first :: rest →
          documentMatchesFilter lib document rule = (first, none)) ∧
      (lib.FindStringSubmatch re document.Content = [] →
          documentMatchesFilter lib document rule = ("", none)) ∧
      (∀ whole, lib.FindStringSubmatch re document.Content = [whole] →
          documentMatchesFilter lib document rule = ("", none)) := by
  have key : documentMatchesFilter lib document rule =
      ((lib.FindStringSubmatch re document.Content).getD 1 "", none) := by
    unfold documentMatchesFilter
    rw [hType]
    simp only [hCompile, hSyntax, if_true]
    rcases lib.FindStringSubmatch re document.Content with _ | ⟨a, _ | ⟨b, _ | ⟨c, l⟩⟩⟩ <;> rfl
  refine ⟨key, ?_, ?_, ?_⟩
  · intro whole first rest h
    rw [key, h]
    rfl
  · intro h
    rw [key, h]
    rfl
  · intro whole h
    rw [key, h]
    rfl

/-- C1, on the reference library: filter `invoice-(\d+)` and content `invoice-4471` give
the match `4471`, not `invoice-4471`. -/
theorem documentMatchesFilter_regex_submatch_witness :
    (filterRule .RegexRule "invoice-(\\d+)").«Type» = .RegexRule ∧
      refLib.Compile (filterRule .RegexRule "invoice-(\\d+)").Filter =
        .ok (refCompiled "invoice-(\\d+)") ∧
      reRegexHasSubMatch (filterRule .RegexRule "invoice-(\\d+)").Filter = true ∧
      documentMatchesFilter refLib (contentDocument "invoice-4471")
        (filterRule .RegexRule "invoice-(\\d+)") = ("4471", none) :=
  ⟨rfl, rfl, by decide,
    ((documentMatchesFilter_regex_submatch refLib (contentDocument "invoice-4471")
      (filterRule .RegexRule "invoice-(\\d+)") (refCompiled "invoice-(\\d+)")
      rfl rfl (by decide)).1).trans (by decide)⟩

/-- C2: for a regex rule whose filter compiles and contains no capturing-group syntax,
`documentMatchesFilter` returns the first match of the expression in the filter string
itself, with no error; the result is the same for every document. -/
theorem documentMatchesFilter_regex_plain (lib : Library) (document : Document)
    (rule : Rule) (re : lib.Regexp) (hType : rule.«Type» = .RegexRule)
    (hCompile : lib.Compile rule.Filter = .ok re)
    (hSyntax : reRegexHasSubMatch rule.Filter = false) :
    documentMatchesFilter lib document rule = (lib.FindString re rule.Filter, none) ∧
      ∀ other : Document,
        documentMatchesFilter lib other rule = documentMatchesFilter lib document rule := by
  have key : ∀ d : Document,
      documentMatchesFilter lib d rule = (lib.FindString re rule.Filter, none) := by
    intro d
    unfold documentMatchesFilter
    rw [hType]
    simp [hCompile, hSyntax]
  exact ⟨key document, fun other => (key other).trans (key document).symm⟩

/-- C2, on the reference library: the filter `invoice` gives the match `invoice` on a
document that does not contain the word, and on the empty document. -/
theorem documentMatchesFilter_regex_plain_witness :
    (filterRule .RegexRule "invoice").«Type» = .RegexRule ∧
      refLib.Compile (filterRule .RegexRule "invoice").Filter = .ok (refCompiled "invoice") ∧
      reRegexHasSubMatch (filterRule .RegexRule "invoice").Filter = false ∧
      documentMatchesFilter refLib (contentDocument "a letter")
        (filterRule .RegexRule "invoice") = ("invoice", none) ∧
      documentMatchesFilter refLib (contentDocument "")
        (filterRule .RegexRule "invoice") = ("invoice", none) :=
  have h := documentMatchesFilter_regex_plain refLib (contentDocument "a letter")
    (filterRule .RegexRule "invoice") (refCompiled "invoice") rfl rfl (by decide)
  ⟨rfl, rfl, by decide, h.1.trans (by decide),
    (h.2 (contentDocument "")).trans (h.1.trans (by decide))⟩

/-- C3: for an exact rule `documentMatchesFilter` never returns an error; it returns the
lower-cased filter when the lower-cased filter occurs in the lower-cased document
content, and the empty string otherwise. -/
theorem documentMatchesFilter_exact (lib : Library) (document : Document) (rule : Rule)
    (hType : rule.«Type» = .ExactRule) :
    (documentMatchesFilter lib document rule).2 = none ∧
      ((lib.ToLower rule.Filter).data <:+: (lib.ToLower document.Content).data →
        documentMatchesFilter lib document rule = (lib.ToLower rule.Filter, none)) ∧
      (¬ (lib.ToLower rule.Filter).data <:+: (lib.ToLower document.Content).data →
        documentMatchesFilter lib document rule = ("", none)) := by
  unfold documentMatchesFilter
  rw [hType]
  simp only
  by_cases h : Contains (lib.ToLower document.Content) (lib.ToLower rule.Filter) = true
  · have hin := (Contains_iff_occurs _ _).1 h
    simp [h, hin]
  · have hin : ¬ (lib.ToLower rule.Filter).data <:+: (lib.ToLower document.Content).data :=
      fun hi => h ((Contains_iff_occurs _ _).2 hi)
    simp only [h]
    exact ⟨rfl, fun hi => absurd hi hin, fun _ => rfl⟩

/-- C3, on the reference library: the filter `Invoice` matches the content
`this is an invoice` with the value `invoice`, and does not match `a letter`. -/
theorem documentMatchesFilter_exact_witness :
    (filterRule .ExactRule "Invoice").«Type» = .ExactRule ∧
      documentMatchesFilter refLib (contentDocument "this is an invoice")
        (filterRule .ExactRule "Invoice") = ("invoice", none) ∧
      documentMatchesFilter refLib (contentDocument "a letter")
        (filterRule .ExactRule "Invoice") = ("", none) :=
  ⟨rfl,
    ((documentMatchesFilter_exact refLib (contentDocument "this is an invoice")
      (filterRule .ExactRule "Invoice") rfl).2.1 (by decide)).trans (by decide),
    (documentMatchesFilter_exact refLib (contentDocument "a letter")
      (filterRule .ExactRule "Invoice") rfl).2.2 (by decide)⟩

theorem runRules_snd (lib : Library) (rules : List Rule) :
    ∀ document : Document, (runRules lib document rules).2 = none := by
  induction rules with
  | nil => intro document; rfl
  | cons rule rest ih =>
    intro document
    unfold runRules
    split
    · exact ih _
    · split
      · exact ih _
      · exact ih _

theorem runRules_cons (lib : Library) (document : Document) (rule : Rule)
    (rest : List Rule) :
    runRules lib document (rule :: rest) =
      match documentMatchesFilter lib document rule with
      | (_, some _) => runRules lib document rest
      | (matched, none) =>
        if matched ≠ "" then
          runRules lib (applyRule lib document rule matched).1 rest
        else
          runRules lib document rest := by
  rw [runRules]

theorem runRules_append (lib : Library) (pre post : List Rule) :
    ∀ document : Document,
      runRules lib document (pre ++ post) = runRules lib (runRules lib document pre).1 post := by
  induction pre with
  | nil => intro document; rfl
  | cons rule rest ih =>
    intro document
    rw [List.cons_append, runRules_cons, runRules_cons]
    rcases h : documentMatchesFilter lib document rule with ⟨m, _ | e⟩
    · by_cases hm : m = ""
      · simp only [hm, ne_eq, not_true_eq_false, if_false]
        exact ih _
      · simp only [hm, ne_eq, not_false_eq_true, if_true]
        exact ih _
    · exact ih _

theorem applyRule_error_unchanged (lib : Library) (document : Document) (rule : Rule)
    (matched : String) (hErr : (applyRule lib document rule matched).2 ≠ none) :
    (applyRule lib document rule matched).1 = document := by
  unfold applyRule at hErr ⊢
  split at hErr <;> first
    | exact absurd rfl hErr
    | rfl
    | (split at hErr
       · rfl
       · exact absurd rfl hErr)

theorem runRules_cons_of_fails (lib : Library) (document : Document) (rule : Rule)
    (post : List Rule) (hFail : ruleFails lib document rule) :
    runRules lib document (rule :: post) = runRules lib document post := by
  rw [runRules]
  rcases hFail with h | ⟨hne, hErr⟩
  · split
    · rfl
    · rename_i m heq
      rw [heq] at h
      exact absurd rfl h
  · split
    · rfl
    · rename_i m heq
      rw [heq] at hne hErr
      simp only [ne_eq] at hne
      rw [if_pos hne, applyRule_error_unchanged lib document rule m hErr]

theorem ruleFails_of_invalid_regex (lib : Library) (document : Document) (rule : Rule)
    (err : String) (hType : rule.«Type» = .RegexRule)
    (hCompile : lib.Compile rule.Filter = .error err) : ruleFails lib document rule := by
  left
  unfold documentMatchesFilter
  rw [hType]
  simp [hCompile]

theorem ruleFails_of_unknown_action (lib : Library) (document : Document) (rule : Rule)
    (name : String) (hAction : rule.Action.Action = .other name)
    (hMatch : (documentMatchesFilter lib document rule).1 ≠ "") :
    ruleFails lib document rule := by
  right
  refine ⟨hMatch, ?_⟩
  unfold applyRule
  rw [hAction]
  simp

theorem ruleFails_of_date_mismatch (lib : Library) (document : Document) (rule : Rule)
    (err : String) (hAction : rule.Action.Action = .RuleActionSetDate)
    (hMatch : (documentMatchesFilter lib document rule).1 ≠ "")
    (hParse : lib.Parse rule.Action.DateFmt (documentMatchesFilter lib document rule).1 =
      .error err) :
    ruleFails lib document rule := by
  right
  refine ⟨hMatch, ?_⟩
  unfold applyRule
  rw [hAction]
  simp [hParse]

/-- C4: a failing rule never blocks the others. When a rule fails on the document that
the rules before it produced (its filter does not compile, or its action returns an
error), the document after that rule is the document before it, the rules after it are
run on that document, `runRules` returns no error, and the result is the result of the
list without the failing rule. -/
theorem runRules_failing_rule_skipped (lib : Library) (document : Document)
    (pre : List Rule) (rule : Rule) (post : List Rule)
    (hFail : ruleFails lib (runRules lib document pre).1 rule) :
    (runRules lib document (pre ++ [rule])).1 = (runRules lib document pre).1 ∧
      runRules lib document (pre ++ rule :: post) =
        runRules lib (runRules lib document pre).1 post ∧
      (runRules lib document (pre ++ rule :: post)).2 = none ∧
      runRules lib document (pre ++ rule :: post) = runRules lib document (pre ++ post) := by
  have hstep := runRules_cons_of_fails lib (runRules lib document pre).1 rule
  refine ⟨?_, ?_, runRules_snd lib _ document, ?_⟩
  · rw [runRules_append, hstep [] hFail]
    rfl
  · rw [runRules_append, hstep post hFail]
  · rw [runRules_append, hstep post hFail, runRules_append]

/-- C4, on the reference library: between an add-tag rule and a set-description rule, a
rule whose filter `(` does not compile changes nothing. -/
theorem runRules_failing_rule_skipped_witness :
    ruleFails refLib
        (runRules refLib (contentDocument "x")
          [actionRule (actionOf .RuleActionAddTag 0 0 "" 7)]).1
        (filterRule .RegexRule "(") ∧
      runRules refLib (contentDocument "x")
          ([actionRule (actionOf .RuleActionAddTag 0 0 "" 7)] ++
            filterRule .RegexRule "(" ::
              [actionRule (actionOf .RuleActionSetDescription 0 0 "" 0)]) =
        runRules refLib (contentDocument "x")
          ([actionRule (actionOf .RuleActionAddTag 0 0 "" 7)] ++
            [actionRule (actionOf .RuleActionSetDescription 0 0 "" 0)]) :=
  ⟨by decide,
    (runRules_failing_rule_skipped refLib (contentDocument "x")
      [actionRule (actionOf .RuleActionAddTag 0 0 "" 7)] (filterRule .RegexRule "(")
      [actionRule (actionOf .RuleActionSetDescription 0 0 "" 0)] (by decide)).2.2.2⟩

/-- C5: for a set-date action, when the match parses with the action's date format
`applyRule` returns no error and the document with its date set to the parsed time, every
other field as before; when it does not parse, `applyRule` returns an error and the
document as it was. -/
theorem applyRule_set_date (lib : Library) (document : Document) (rule : Rule)
    (matched : String) (hAction : rule.Action.Action = .RuleActionSetDate) :
    (∀ ts, lib.Parse rule.Action.DateFmt matched = .ok ts →
        applyRule lib document rule matched = ({ document with Date := ts }, none)) ∧
      (∀ err, lib.Parse rule.Action.DateFmt matched = .error err →
        (applyRule lib document rule matched).1 = document ∧
          (applyRule lib document rule matched).2 ≠ none) := by
  unfold applyRule
  rw [hAction]
  constructor
  · intro ts h
    simp [h]
  · intro err h
    simp [h]

/-- C5, on the reference library: with the format `2006-01-02` the match `2023-05-01`
sets the date to May 1, 2023, and the match `not-a-date` returns an error and leaves the
document as it was. -/
theorem applyRule_set_date_witness :
    (actionRule (actionOf .RuleActionSetDate 0 0 "2006-01-02" 0)).Action.Action =
        .RuleActionSetDate ∧
      applyRule refLib (contentDocument "x")
          (actionRule (actionOf .RuleActionSetDate 0 0 "2006-01-02" 0)) "2023-05-01" =
        ({ contentDocument "x" with Date := ⟨2023, 5, 1, 0, 0, 0, 0⟩ }, none) ∧
      (applyRule refLib (contentDocument "x")
          (actionRule (actionOf .RuleActionSetDate 0 0 "2006-01-02" 0)) "not-a-date").1 =
        contentDocument "x" ∧
      (applyRule refLib (contentDocument "x")
          (actionRule (actionOf .RuleActionSetDate 0 0 "2006-01-02" 0)) "not-a-date").2 ≠
        none :=
  ⟨rfl,
    (applyRule_set_date refLib (contentDocument "x")
      (actionRule (actionOf .RuleActionSetDate 0 0 "2006-01-02" 0)) "2023-05-01" rfl).1
      ⟨2023, 5, 1, 0, 0, 0, 0⟩ rfl,
    (applyRule_set_date refLib (contentDocument "x")
      (actionRule (actionOf .RuleActionSetDate 0 0 "2006-01-02" 0)) "not-a-date" rfl).2
      _ rfl⟩

/-- C6: add-metadata and add-tag are additive. With an add-metadata action `applyRule`
returns no error and the document whose metadata list is the old list (empty if absent)
followed by the pair of the action; with an add-tag action, the document whose tag list
is the old list followed by the tag of the action; the same add-metadata action applied
twice leaves the old list followed by two equal pairs. -/
theorem applyRule_additive (lib : Library) (document : Document) (rule : Rule)
    (matched again : String) :
    (rule.Action.Action = .RuleActionAddMetadata →
        applyRule lib document rule matched =
          ({ document with
              Metadata := some (document.Metadata.getD [] ++
                [⟨rule.Action.MetadataKeyId, rule.Action.MetadataValueId⟩]) }, none) ∧
        (applyRule lib (applyRule lib document rule matched).1 rule again).1.Metadata =
          some (document.Metadata.getD [] ++
            [⟨rule.Action.MetadataKeyId, rule.Action.MetadataValueId⟩,
             ⟨rule.Action.MetadataKeyId, rule.Action.MetadataValueId⟩])) ∧
      (rule.Action.Action = .RuleActionAddTag →
        applyRule lib document rule matched =
          ({ document with
              Tags := some (document.Tags.getD [] ++ [⟨rule.Action.Tag⟩]) }, none)) := by
  constructor
  · intro h
    unfold applyRule
    rw [h]
    cases hm : document.Metadata <;> simp [hm]
  · intro h
    unfold applyRule
    rw [h]
    cases ht : document.Tags <;> simp [ht]

/-- C6, on a document that already carries the pair (3, 4): adding (3, 4) gives the list
with that pair twice, and adding it once more gives it three times. -/
theorem applyRule_additive_witness :
    (actionRule (actionOf .RuleActionAddMetadata 3 4 "" 0)).Action.Action =
        .RuleActionAddMetadata ∧
      (applyRule refLib { contentDocument "x" with Metadata := some [⟨3, 4⟩] }
          (actionRule (actionOf .RuleActionAddMetadata 3 4 "" 0)) "x").1.Metadata =
        some [⟨3, 4⟩, ⟨3, 4⟩] ∧
      (applyRule refLib
          (applyRule refLib { contentDocument "x" with Metadata := some [⟨3, 4⟩] }
            (actionRule (actionOf .RuleActionAddMetadata 3 4 "" 0)) "x").1
          (actionRule (actionOf .RuleActionAddMetadata 3 4 "" 0)) "x").1.Metadata =
        some [⟨3, 4⟩, ⟨3, 4⟩, ⟨3, 4⟩] :=
  have h := (applyRule_additive refLib { contentDocument "x" with Metadata := some [⟨3, 4⟩] }
    (actionRule (actionOf .RuleActionAddMetadata 3 4 "" 0)) "x" "x").1 rfl
  ⟨rfl, congrArg (fun r => r.1.Metadata) h.1, h.2⟩

/-- C7: with a set-description action `applyRule` returns no error and the document whose
description is the previous description, then a blank line, then the match, every other
field as before; the previous description is a prefix of the new one. -/
theorem applyRule_set_description (lib : Library) (document : Document) (rule : Rule)
    (matched : String) (hAction : rule.Action.Action = .RuleActionSetDescription) :
    applyRule lib document rule matched =
        ({ document with Description := document.Description ++ "\n\n" ++ matched }, none) ∧
      document.Description.data <+:
        (applyRule lib document rule matched).1.Description.data := by
  have key : applyRule lib document rule matched =
      ({ document with Description := document.Description ++ "\n\n" ++ matched }, none) := by
    unfold applyRule
    rw [hAction]
    rfl
  refine ⟨key, ?_⟩
  rw [key]
  simp only [String.data_append, List.append_assoc]
  exact List.prefix_append _ _

/-- C7, on concrete documents: the description `first` becomes `first`, a blank line,
`second`; an empty description becomes a blank line and `second`. -/
theorem applyRule_set_description_witness :
    (actionRule (actionOf .RuleActionSetDescription 0 0 "" 0)).Action.Action =
        .RuleActionSetDescription ∧
      (applyRule refLib { contentDocument "x" with Description := "first" }
          (actionRule (actionOf .RuleActionSetDescription 0 0 "" 0))
          "second").1.Description = "first\n\nsecond" ∧
      (applyRule refLib (contentDocument "x")
          (actionRule (actionOf .RuleActionSetDescription 0 0 "" 0))
          "second").1.Description = "\n\nsecond" :=
  ⟨rfl,
    (congrArg (fun r => r.1.Description)
      (applyRule_set_description refLib { contentDocument "x" with Description := "first" }
        (actionRule (actionOf .RuleActionSetDescription 0 0 "" 0)) "second" rfl).1).trans
      (by decide),
    by decide⟩

/-! ## Theorems on `file.go` -/

theorem newCalls_append (w w1 : World) (calls : List Event)
    (h : w1.trace = w.trace ++ calls) : newCalls w w1 = calls := by
  unfold newCalls
  rw [h, List.drop_left]

theorem StartProcessItem_ok (w w1 : World) (item : ProcessItem) (label : String) (job : Job)
    (h : StartProcessItem w item label = (.ok job, w1)) :
    w.fails = false ∧ job = w.startJob item label ∧
      w1 = w.record (.StartProcessItem item label) := by
  unfold StartProcessItem at h
  cases hf : w.fails <;> simp [hf] at h
  exact ⟨rfl, h.1.symm, h.2.symm⟩

theorem getHash_world (env : Env) (w w1 : World) (file : File) (hash : String)
    (err : Option Error) (h : getHash env w file = (hash, err, w1)) :
    w1 = w.record (.GetHash file.name) ∧
      (err = none → hash = env.digest file.content ∧ w.fails = false) ∧
      (err ≠ none → w.fails = true) := by
  unfold getHash at h
  cases hf : w.fails <;> simp [hf] at h
  · obtain ⟨h1, h2, h3⟩ := h
    subst h1 h2 h3
    simp
  · obtain ⟨h1, h2, h3⟩ := h
    subst h1 h2 h3
    simp

theorem osRename_ok (w w1 : World) (oldpath newpath : String)
    (h : osRename w oldpath newpath = (none, w1)) :
    w1.trace = w.trace ++ [.Rename oldpath newpath] ∧
      w1.files = renamed w.files oldpath newpath ∧ w1.documents = w.documents ∧
      w1.fault = w.fault ∧ w.files oldpath ≠ none := by
  unfold osRename at h
  cases hf : w.fails <;> simp [hf] at h
  cases hp : w.files oldpath <;> simp [hp] at h
  subst h
  simp [World.record]

theorem osRename_error (w w1 : World) (oldpath newpath : String) (err : Error)
    (h : osRename w oldpath newpath = (some err, w1)) :
    w1 = w.record (.Rename oldpath newpath) := by
  unfold osRename at h
  cases hf : w.fails <;> simp [hf] at h
  · cases hp : w.files oldpath <;> simp [hp] at h
    exact h.2.symm
  · exact h.2.symm

theorem DocumentUpdate_error (w w1 : World) (document : Document) (err : Error)
    (h : DocumentUpdate w document = (some err, w1)) :
    w1 = w.record (.DocumentUpdate document) := by
  unfold DocumentUpdate at h
  cases hf : w.fails <;> simp [hf] at h
  exact h.2.symm

theorem DocumentUpdate_ok (w w1 : World) (document : Document)
    (h : DocumentUpdate w document = (none, w1)) :
    w1.trace = w.trace ++ [.DocumentUpdate document] ∧ w1.files = w.files := by
  unfold DocumentUpdate at h
  cases hf : w.fails <;> simp [hf] at h
  subst h
  simp [World.record]

theorem persistProcess_trace (w : World) (process : ProcessItem) (job : Job) :
    (persistProcess w process job).trace =
        w.trace ++ [.MarkProcessingDone process (decide (job.Status = .JobFinished)),
          .JobUpdate job] ∧
      (persistProcess w process job).files = w.files ∧
      (persistProcess w process job).documents = w.documents := by
  simp [persistProcess, MarkProcessingDone, JobUpdate, World.record]

theorem marks_append (xs ys : List Event) : marks (xs ++ ys) = marks xs ++ marks ys := by
  induction xs with
  | nil => rfl
  | cons e rest ih => cases e <;> simp [marks, ih]

/-- The result of `updateHash` once the process item is started, in terms of the calls
that follow: hashing, then (when the hash differs) the rename, then the update. -/
theorem updateHash_started (env : Env) (w w1 : World) (document : Document) (file : File)
    (job : Job)
    (hStart : StartProcessItem w ⟨document.Id, .ProcessHash⟩ "calculate hash" = (.ok job, w1)) :
    updateHash env w document file =
      match getHash env w1 file with
      | (_, some err, w2) =>
        (document, some err,
          persistProcess w2 ⟨document.Id, .ProcessHash⟩ { job with Status := .JobFailure })
      | (hash, none, w2) =>
        if hash ≠ document.Hash then
          match osRename w2 file.name (env.Join env.DocumentsDir hash) with
          | (some err, w3) =>
            (document,
              some (Errorf
                ("rename file (doc " ++ toString document.Id ++ ") by old hash: ") err),
              persistProcess w3 ⟨document.Id, .ProcessHash⟩
                { job with Status := .JobFailure })
          | (none, w3) =>
            match DocumentUpdate w3 { document with Hash := hash } with
            | (some err, w4) =>
              ({ document with Hash := hash }, some (Errorf "save updated document: " err),
                persistProcess w4 ⟨document.Id, .ProcessHash⟩
                  { job with Status := .JobFailure })
            | (none, w4) =>
              ({ document with Hash := hash }, none,
                persistProcess w4 ⟨document.Id, .ProcessHash⟩
                  { job with Status := .JobFinished })
        else
          (document, none,
            persistProcess w2 ⟨document.Id, .ProcessHash⟩
              { job with Status := .JobFinished, Message := "hash: no change" }) := by
  rw [updateHash]
  simp only [hStart]


theorem trace_step (w w1 w2 : World) (calls more : List Event)
    (h1 : w1.trace = w.trace ++ calls) (h2 : w2.trace = w1.trace ++ more) :
    w2.trace = w.trace ++ (calls ++ more) := by
  rw [h2, h1, List.append_assoc]

theorem trace_record (w w1 : World) (calls : List Event) (e : Event)
    (h1 : w1.trace = w.trace ++ calls) :
    (w1.record e).trace = w.trace ++ (calls ++ [e]) := by
  simp [World.record, h1]

theorem newCalls_persistProcess (w w2 : World) (calls : List Event) (process : ProcessItem)
    (job : Job) (h : w2.trace = w.trace ++ calls) :
    newCalls w (persistProcess w2 process job) =
      calls ++ [.MarkProcessingDone process (decide (job.Status = .JobFinished)),
        .JobUpdate job] := by
  apply newCalls_append
  rw [(persistProcess_trace w2 process job).1, h, List.append_assoc]

/-- C10: once the process item is started, `updateHash` records exactly one completion
outcome, for the compute-hash item of the document, and its success flag is `true`
exactly when `updateHash` returns no error; it returns no error exactly when hashing
succeeds and either the hash is the hash of the document, or the hash differs and both
the rename and the Document update succeed. When the hash is unchanged the document is
returned as it was, the calls made are the start of the item, the hashing, the completion
mark and the job update with the message `hash: no change` (no rename, no Document
update), and the file system and the Document Store are as before. -/
theorem updateHash_outcome (env : Env) (w w1 : World) (document : Document) (file : File)
    (job : Job)
    (hStart : StartProcessItem w ⟨document.Id, .ProcessHash⟩ "calculate hash" = (.ok job, w1)) :
    marks (newCalls w (updateHash env w document file).2.2) =
        [(⟨document.Id, .ProcessHash⟩,
          decide ((updateHash env w document file).2.1 = none))] ∧
      ((updateHash env w document file).2.1 = none ↔
        (∃ w2, getHash env w1 file = (document.Hash, none, w2)) ∨
        (∃ hash w2 w3 w4, hash ≠ document.Hash ∧
          getHash env w1 file = (hash, none, w2) ∧
          osRename w2 file.name (env.Join env.DocumentsDir hash) = (none, w3) ∧
          DocumentUpdate w3 { document with Hash := hash } = (none, w4))) ∧
      (∀ w2, getHash env w1 file = (document.Hash, none, w2) →
        (updateHash env w document file).1 = document ∧
        newCalls w (updateHash env w document file).2.2 =
          [.StartProcessItem ⟨document.Id, .ProcessHash⟩ "calculate hash",
            .GetHash file.name,
            .MarkProcessingDone ⟨document.Id, .ProcessHash⟩ true,
            .JobUpdate { job with Status := .JobFinished, Message := "hash: no change" }] ∧
        (updateHash env w document file).2.2.files = w.files ∧
        (updateHash env w document file).2.2.documents = w.documents) := by
  obtain ⟨-, -, hw1⟩ := StartProcessItem_ok w w1 _ _ job hStart
  have ht1 : w1.trace = w.trace ++
      ([] ++ [.StartProcessItem ⟨document.Id, .ProcessHash⟩ "calculate hash"]) := by
    rw [hw1]
    exact trace_record w w _ _ (by simp)
  rw [updateHash_started env w w1 document file job hStart]
  rcases hg : getHash env w1 file with ⟨hash, _ | err, w2⟩
  · -- hashing succeeded
    obtain ⟨hw2, -, -⟩ := getHash_world env w1 w2 file hash none hg
    have ht2 := hw2 ▸ trace_record w w1 _ (.GetHash file.name) ht1
    have hf2 : w2.files = w.files := by rw [hw2, hw1]; rfl
    have hd2 : w2.documents = w.documents := by rw [hw2, hw1]; rfl
    by_cases hh : hash = document.Hash
    · -- no change
      subst hh
      dsimp only
      simp only [ne_eq, not_true_eq_false, if_false]
      have hp := persistProcess_trace w2 ⟨document.Id, .ProcessHash⟩
        { job with Status := .JobFinished, Message := "hash: no change" }
      rw [newCalls_persistProcess w w2 _ _ _ ht2]
      refine ⟨by simp [marks, marks_append], by simp, fun w2' _ => ?_⟩
      exact ⟨by simp, by simp, hp.2.1.trans hf2, hp.2.2.trans hd2⟩
    · -- the hash differs
      dsimp only
      simp only [ne_eq, hh, not_false_eq_true, if_true]
      have hno : ∀ w2' : World, ¬ (hash, (none : Option Error), w2) = (document.Hash, none, w2') :=
        fun w2' h' => hh (congrArg Prod.fst h')
      rcases hr : osRename w2 file.name (env.Join env.DocumentsDir hash) with ⟨_ | err, w3⟩
      · obtain ⟨ht3, -, -, -, -⟩ := osRename_ok w2 w3 _ _ hr
        have ht3 := trace_step w w2 w3 _ _ ht2 ht3
        dsimp only
        rcases hu : DocumentUpdate w3 { document with Hash := hash } with ⟨_ | err, w4⟩
        · obtain ⟨ht4, -⟩ := DocumentUpdate_ok w3 w4 _ hu
          have ht4 := trace_step w w3 w4 _ _ ht3 ht4
          dsimp only
          rw [newCalls_persistProcess w w4 _ _ _ ht4]
          refine ⟨by simp [marks, marks_append], ?_, fun w2' h' => absurd h' (hno w2')⟩
          simp only [true_iff]
          exact Or.inr ⟨hash, w2, w3, w4, hh, rfl, hr, hu⟩
        · have hw4 := DocumentUpdate_error w3 w4 _ err hu
          have ht4 := hw4 ▸ trace_record w w3 _ (.DocumentUpdate { document with Hash := hash }) ht3
          dsimp only
          rw [newCalls_persistProcess w w4 _ _ _ ht4]
          refine ⟨by simp [marks, marks_append], ?_, fun w2' h' => absurd h' (hno w2')⟩
          simp only [reduceCtorEq, false_iff, not_or, not_exists, not_and]
          refine ⟨hno, fun hash' w2' w3' w4' _ h1 h2 h3 => ?_⟩
          simp only [Prod.mk.injEq] at h1
          obtain ⟨rfl, -, rfl⟩ := h1
          rw [hr] at h2
          simp only [Prod.mk.injEq, true_and] at h2
          subst h2
          rw [hu] at h3
          simp at h3
      · have hw3 := osRename_error w2 w3 _ _ err hr
        have ht3 := hw3 ▸ trace_record w w2 _
          (.Rename file.name (env.Join env.DocumentsDir hash)) ht2
        dsimp only
        rw [newCalls_persistProcess w w3 _ _ _ ht3]
        refine ⟨by simp [marks, marks_append], ?_, fun w2' h' => absurd h' (hno w2')⟩
        simp only [reduceCtorEq, false_iff, not_or, not_exists, not_and]
        refine ⟨hno, fun hash' w2' w3' w4' _ h1 h2 _ => ?_⟩
        simp only [Prod.mk.injEq] at h1
        obtain ⟨rfl, -, rfl⟩ := h1
        rw [hr] at h2
        simp at h2
  · -- hashing failed
    obtain ⟨hw2, -, -⟩ := getHash_world env w1 w2 file hash (some err) hg
    have ht2 := hw2 ▸ trace_record w w1 _ (.GetHash file.name) ht1
    dsimp only
    rw [newCalls_persistProcess w w2 _ _ _ ht2]
    exact ⟨by simp [marks, marks_append], by simp, fun w2' h' => by simp at h'⟩

/-- C10, on the reference world without faults: the hash of the file differs from the
hash of the document, the rename and the update succeed, and the one completion mark is a
success. -/
theorem updateHash_outcome_witness :
    StartProcessItem (refWorld "changed" (fun _ => false))
        ⟨(storedDocument "old").Id, .ProcessHash⟩ "calculate hash" =
      (.ok (refStartJob ⟨1, .ProcessHash⟩ "calculate hash"),
        (refWorld "changed" (fun _ => false)).record
          (.StartProcessItem ⟨1, .ProcessHash⟩ "calculate hash")) ∧
      marks (newCalls (refWorld "changed" (fun _ => false))
        (updateHash refEnv (refWorld "changed" (fun _ => false)) (storedDocument "old")
          ⟨"documents/old", "changed"⟩).2.2) = [(⟨1, .ProcessHash⟩, true)] :=
  ⟨rfl,
    ((updateHash_outcome refEnv (refWorld "changed" (fun _ => false)) _ (storedDocument "old")
      ⟨"documents/old", "changed"⟩ _ rfl).1).trans (by decide)⟩

/-- C9, amended: when the recomputed hash differs, the rename succeeds and the Document
update then fails, `updateHash` returns an error and records one completion mark, a
failure; the Document Store keeps its records; the rename is not undone: the file
system is the one that the rename left, with the contents under the new hash in the
documents directory and nothing under the old name (when the two paths differ), and
the hash field of the in-memory document holds the new hash. -/
theorem updateHash_update_failure (env : Env) (w w1 w2 w3 w4 : World) (document : Document)
    (file : File) (job : Job) (hash : String) (err : Error)
    (hStart : StartProcessItem w ⟨document.Id, .ProcessHash⟩ "calculate hash" = (.ok job, w1))
    (hHash : getHash env w1 file = (hash, none, w2)) (hDiffers : hash ≠ document.Hash)
    (hRename : osRename w2 file.name (env.Join env.DocumentsDir hash) = (none, w3))
    (hUpdate : DocumentUpdate w3 { document with Hash := hash } = (some err, w4)) :
    (updateHash env w document file).2.1 ≠ none ∧
      marks (newCalls w (updateHash env w document file).2.2) =
        [(⟨document.Id, .ProcessHash⟩, false)] ∧
      (updateHash env w document file).2.2.documents = w.documents ∧
      (updateHash env w document file).1 = { document with Hash := hash } ∧
      (updateHash env w document file).2.2.files =
        renamed w.files file.name (env.Join env.DocumentsDir hash) ∧
      w.files file.name ≠ none ∧
      (updateHash env w document file).2.2.files (env.Join env.DocumentsDir hash) =
        w.files file.name ∧
      (env.Join env.DocumentsDir hash ≠ file.name →
        (updateHash env w document file).2.2.files file.name = none) := by
  obtain ⟨-, -, hw1⟩ := StartProcessItem_ok w w1 _ _ job hStart
  obtain ⟨hw2, -, -⟩ := getHash_world env w1 w2 file hash none hHash
  obtain ⟨ht3, hf3, hd3, -, hex⟩ := osRename_ok w2 w3 _ _ hRename
  have hw4 := DocumentUpdate_error w3 w4 _ err hUpdate
  have hf2 : w2.files = w.files := by rw [hw2, hw1]; rfl
  have hd2 : w2.documents = w.documents := by rw [hw2, hw1]; rfl
  have ht1 : w1.trace = w.trace ++
      ([] ++ [.StartProcessItem ⟨document.Id, .ProcessHash⟩ "calculate hash"]) := by
    rw [hw1]
    exact trace_record w w _ _ (by simp)
  have ht2 := hw2 ▸ trace_record w w1 _ (.GetHash file.name) ht1
  have ht3 := trace_step w w2 w3 _ _ ht2 ht3
  have ht4 := hw4 ▸ trace_record w w3 _ (.DocumentUpdate { document with Hash := hash }) ht3
  rw [updateHash_started env w w1 document file job hStart]
  simp only [hHash, hRename, hUpdate, ne_eq, hDiffers, not_false_eq_true, if_true]
  have hp := persistProcess_trace w4 ⟨document.Id, .ProcessHash⟩
    { job with Status := .JobFailure }
  have hfiles : (persistProcess w4 ⟨document.Id, .ProcessHash⟩
      { job with Status := .JobFailure }).files =
      renamed w.files file.name (env.Join env.DocumentsDir hash) := by
    rw [hp.2.1, hw4, ← hf2, ← hf3]; rfl
  rw [newCalls_persistProcess w w4 _ _ _ ht4]
  refine ⟨by simp, by simp [marks, marks_append], ?_, trivial, hfiles, hf2 ▸ hex, ?_, ?_⟩
  · rw [hp.2.2, hw4, ← hd2, ← hd3]; rfl
  · rw [hfiles]; simp [renamed]
  · intro hpath
    rw [hfiles]
    simp [renamed, Ne.symm hpath]

/-- C9, amended, on the reference world in which the fourth call (the Document update)
fails. -/
theorem updateHash_update_failure_witness :
    (updateHash refEnv (refWorld "changed" (fun n => n == 3)) (storedDocument "old")
        ⟨"documents/old", "changed"⟩).2.1 ≠ none ∧
      marks (newCalls (refWorld "changed" (fun n => n == 3))
        (updateHash refEnv (refWorld "changed" (fun n => n == 3)) (storedDocument "old")
          ⟨"documents/old", "changed"⟩).2.2) = [(⟨1, .ProcessHash⟩, false)] :=
  have h := updateHash_update_failure refEnv (refWorld "changed" (fun n => n == 3)) _ _ _ _
    (storedDocument "old") ⟨"documents/old", "changed"⟩ _ "sha:changed" faultError
    rfl rfl (by decide) rfl rfl
  ⟨h.1, h.2.1⟩

/-- C9 as stated fails. The document has the hash `old` and its file `documents/old`
holds contents whose digest is `sha:changed`; the process item is started, the hashing
and the rename succeed and the Document update (the fourth call) fails. After
`updateHash` there is no file under `documents/old`, the contents are under
`documents/sha:changed`, and the hash field of the document is `sha:changed`, not `old`. -/
theorem updateHash_rename_not_undone :
    refEnv.Join refEnv.DocumentsDir (storedDocument "old").Hash = "documents/old" ∧
      (refWorld "changed" (fun n => n == 3)).files "documents/old" = some "changed" ∧
      refEnv.digest "changed" ≠ (storedDocument "old").Hash ∧
      (osRename
        (getHash refEnv
          (StartProcessItem (refWorld "changed" (fun n => n == 3))
            ⟨1, .ProcessHash⟩ "calculate hash").2
          ⟨"documents/old", "changed"⟩).2.2
        "documents/old" "documents/sha:changed").1 = none ∧
      (DocumentUpdate
        (osRename
          (getHash refEnv
            (StartProcessItem (refWorld "changed" (fun n => n == 3))
              ⟨1, .ProcessHash⟩ "calculate hash").2
            ⟨"documents/old", "changed"⟩).2.2
          "documents/old" "documents/sha:changed").2
        { storedDocument "old" with Hash := "sha:changed" }).1 = some faultError ∧
      (updateHash refEnv (refWorld "changed" (fun n => n == 3)) (storedDocument "old")
        ⟨"documents/old", "changed"⟩).2.2.files "documents/old" = none ∧
      (updateHash refEnv (refWorld "changed" (fun n => n == 3)) (storedDocument "old")
        ⟨"documents/old", "changed"⟩).2.2.files "documents/sha:changed" = some "changed" ∧
      (updateHash refEnv (refWorld "changed" (fun n => n == 3)) (storedDocument "old")
        ⟨"documents/old", "changed"⟩).1.Hash = "sha:changed" ∧
      ¬ ((updateHash refEnv (refWorld "changed" (fun n => n == 3)) (storedDocument "old")
          ⟨"documents/old", "changed"⟩).2.2.files "documents/old" ≠ none ∧
        (updateHash refEnv (refWorld "changed" (fun n => n == 3)) (storedDocument "old")
          ⟨"documents/old", "changed"⟩).1.Hash = "old") := by
  refine ⟨by decide, by decide, by decide, by decide, by decide, by decide, by decide,
    by decide, by decide⟩

/-! ### The trace only grows -/

theorem record_grows (w : World) (e : Event) : w.trace <+: (w.record e).trace := by
  simp [World.record]

theorem grows_of_pair {α : Type} (w w1 : World) (p : α × World) (r : α)
    (h : p = (r, w1)) (hp : w.trace <+: p.2.trace) : w.trace <+: w1.trace := by
  subst h
  exact hp

theorem grows_of_triple {α β : Type} (w w1 : World) (p : α × β × World) (r : α) (s : β)
    (h : p = (r, s, w1)) (hp : w.trace <+: p.2.2.trace) : w.trace <+: w1.trace := by
  subst h
  exact hp

theorem grows_of_middle {α β : Type} (w w1 : World) (p : α × World × β) (r : α) (s : β)
    (h : p = (r, w1, s)) (hp : w.trace <+: p.2.1.trace) : w.trace <+: w1.trace := by
  subst h
  exact hp

theorem StartProcessItem_grows (w : World) (item : ProcessItem) (label : String) :
    w.trace <+: (StartProcessItem w item label).2.trace := by
  simp [StartProcessItem, World.record]

theorem JobCreate_grows (w : World) (documentId : Int) (job : Job) :
    w.trace <+: (JobCreate w documentId job).2.trace := by
  simp [JobCreate, World.record]

theorem ConvertImageCommand_grows (w : World) (args : List String) :
    w.trace <+: (ConvertImageCommand w args).2.trace := by
  simp [ConvertImageCommand, World.record]

theorem SetImage_grows (w : World) (path : String) :
    w.trace <+: (SetImage w path).2.trace := by
  simp [SetImage, World.record]

theorem Text_grows (w : World) (imageFile : String) :
    w.trace <+: (Text w imageFile).2.2.trace := by
  unfold Text
  split <;> simp [World.record]

theorem SetDocumentContent_grows (w : World) (documentId : Int) (text : String) :
    w.trace <+: (SetDocumentContent w documentId text).2.trace := by
  unfold SetDocumentContent
  split <;> simp [World.record]

theorem getHash_grows (env : Env) (w : World) (file : File) :
    w.trace <+: (getHash env w file).2.2.trace := by
  unfold getHash
  split <;> simp [World.record]

theorem osRename_grows (w : World) (oldpath newpath : String) :
    w.trace <+: (osRename w oldpath newpath).2.trace := by
  unfold osRename
  split
  · simp [World.record]
  · split <;> simp [World.record]

theorem DocumentUpdate_grows (w : World) (document : Document) :
    w.trace <+: (DocumentUpdate w document).2.trace := by
  unfold DocumentUpdate
  split <;> simp [World.record]

theorem osOpen_grows (w : World) (path : String) :
    w.trace <+: (osOpen w path).2.trace := by
  simp [osOpen, World.record]

theorem persistProcess_grows (w : World) (process : ProcessItem) (job : Job) :
    w.trace <+: (persistProcess w process job).trace := by
  rw [(persistProcess_trace w process job).1]
  exact List.prefix_append _ _

theorem persistJob_grows (w : World) (job : Job) :
    w.trace <+: (persistJob w job).trace := by
  simp [persistJob, JobUpdate, World.record]

theorem updateHash_grows (env : Env) (w : World) (document : Document) (file : File) :
    w.trace <+: (updateHash env w document file).2.2.trace := by
  unfold updateHash
  dsimp only
  split
  · next err w1 h => exact grows_of_pair w w1 _ _ h (StartProcessItem_grows w _ _)
  · next job w1 h =>
    have g1 := grows_of_pair w w1 _ _ h (StartProcessItem_grows w _ _)
    split
    · next hash err w2 h2 =>
      exact g1.trans ((grows_of_triple w1 w2 _ _ _ h2 (getHash_grows env w1 file)).trans
        (persistProcess_grows _ _ _))
    · next hash w2 h2 =>
      have g2 := g1.trans (grows_of_triple w1 w2 _ _ _ h2 (getHash_grows env w1 file))
      split
      · split
        · next err w3 h3 =>
          exact g2.trans ((grows_of_pair w2 w3 _ _ h3 (osRename_grows w2 _ _)).trans
            (persistProcess_grows _ _ _))
        · next w3 h3 =>
          have g3 := g2.trans (grows_of_pair w2 w3 _ _ h3 (osRename_grows w2 _ _))
          split
          · next err w4 h4 =>
            exact g3.trans ((grows_of_pair w3 w4 _ _ h4 (DocumentUpdate_grows w3 _)).trans
              (persistProcess_grows _ _ _))
          · next w4 h4 =>
            exact g3.trans ((grows_of_pair w3 w4 _ _ h4 (DocumentUpdate_grows w3 _)).trans
              (persistProcess_grows _ _ _))
      · exact g2.trans (persistProcess_grows _ _ _)

theorem generateThumbnail_grows (env : Env) (w : World) (document : Document) (file : File) :
    w.trace <+: (generateThumbnail env w document file).2.trace := by
  unfold generateThumbnail
  dsimp only
  split
  · next err w1 h => exact grows_of_pair w w1 _ _ h (StartProcessItem_grows w _ _)
  · next job w1 h =>
    have g1 := grows_of_pair w w1 _ _ h (StartProcessItem_grows w _ _)
    split
    · next err w2 h2 =>
      exact g1.trans ((grows_of_pair w1 w2 _ _ h2 (ConvertImageCommand_grows w1 _)).trans
        (persistProcess_grows _ _ _))
    · next w2 h2 =>
      exact g1.trans ((grows_of_pair w1 w2 _ _ h2 (ConvertImageCommand_grows w1 _)).trans
        (persistProcess_grows _ _ _))

theorem recognizeContent_grows (w : World) (document : Document) (imageFile : String) :
    w.trace <+: (recognizeContent w document imageFile).2.2.trace := by
  unfold recognizeContent
  dsimp only
  have g0 := JobCreate_grows w document.Id
    { DocumentId := document.Id, Message := "Parse content with tesseract",
      Status := .JobAwaiting }
  split
  · next err w2 h2 =>
    exact g0.trans ((grows_of_pair _ w2 _ _ h2 (SetImage_grows _ _)).trans
      (persistJob_grows _ _))
  · next w2 h2 =>
    have g2 := g0.trans (grows_of_pair _ w2 _ _ h2 (SetImage_grows _ _))
    split
    · next text err w3 h3 =>
      exact g2.trans ((grows_of_triple w2 w3 _ _ _ h3 (Text_grows w2 _)).trans
        (persistJob_grows _ _))
    · next text w3 h3 =>
      have g3 := g2.trans (grows_of_triple w2 w3 _ _ _ h3 (Text_grows w2 _))
      split
      · next err w4 h4 =>
        exact g3.trans ((grows_of_pair w3 w4 _ _ h4 (SetDocumentContent_grows w3 _ _)).trans
          (persistJob_grows _ _))
      · next w4 h4 =>
        exact g3.trans ((grows_of_pair w3 w4 _ _ h4 (SetDocumentContent_grows w3 _ _)).trans
          (persistJob_grows _ _))

theorem parseContent_grows (lib : Library) (env : Env) (w : World) (file : String)
    (document : Document) :
    w.trace <+: (parseContent lib env w file document).2.2.trace := by
  unfold parseContent
  split
  · dsimp only
    have g0 := JobCreate_grows w document.Id
      { DocumentId := document.Id, Message := "Render image from pdf content",
        Status := .JobAwaiting }
    split
    · next err w2 h2 =>
      exact g0.trans ((grows_of_pair _ w2 _ _ h2 (ConvertImageCommand_grows _ _)).trans
        (persistJob_grows _ _))
    · next w2 h2 =>
      exact g0.trans ((grows_of_pair _ w2 _ _ h2 (ConvertImageCommand_grows _ _)).trans
        ((persistJob_grows _ _).trans (recognizeContent_grows _ _ _)))
  · exact recognizeContent_grows _ _ _

theorem runSteps_grows (lib : Library) (env : Env) (fileName : String) (file : File)
    (steps : List ProcessItem) :
    ∀ (w : World) (document : Document),
      w.trace <+: (runSteps lib env fileName file w document steps).2.1.trace := by
  induction steps with
  | nil =>
    intro w document
    exact List.prefix_rfl
  | cons step rest ih =>
    intro w document
    rw [runSteps]
    split
    · split
      · next document1 err w1 h =>
        exact grows_of_triple w w1 _ _ _ h (updateHash_grows env w document file)
      · next document1 w1 h =>
        exact (grows_of_triple w w1 _ _ _ h (updateHash_grows env w document file)).trans
          (ih w1 document1)
    · split
      · next err w1 h =>
        exact grows_of_pair w w1 _ _ h (generateThumbnail_grows env w document file)
      · next w1 h =>
        exact (grows_of_pair w w1 _ _ h (generateThumbnail_grows env w document file)).trans
          (ih w1 document)
    · split
      · next document1 err w1 h =>
        exact grows_of_triple w w1 _ _ _ h (parseContent_grows lib env w fileName document)
      · next document1 w1 h =>
        exact (grows_of_triple w w1 _ _ _ h
          (parseContent_grows lib env w fileName document)).trans (ih w1 document1)
    · exact ih w document

theorem GetDocumentPendingSteps_world (w w1 : World) (documentId : Int)
    (r : Except Error (List ProcessItem)) (h : GetDocumentPendingSteps w documentId = (r, w1)) :
    w1.trace = w.trace ++ [.GetDocumentPendingSteps documentId] := by
  unfold GetDocumentPendingSteps at h
  simp only [Prod.mk.injEq] at h
  rw [← h.2]
  rfl

/-- The reprocess path starts with the pending-steps query of the ledger, and whatever
follows only adds calls to the trace. -/
theorem processDocument_first_call (lib : Library) (env : Env) (fp : FileProcessor)
    (w : World) (document : Document) (hDocument : fp.document = some document) :
    (w.trace ++ [.GetDocumentPendingSteps document.Id]) <+:
      (processDocument lib env fp w).2.trace := by
  unfold processDocument
  rw [hDocument]
  dsimp only
  split
  · next err w1 h =>
    rw [GetDocumentPendingSteps_world w w1 _ _ h]
  · next pendingSteps w1 h =>
    rw [← GetDocumentPendingSteps_world w w1 _ _ h]
    split
    · next err w2 h2 => exact grows_of_pair w1 w2 _ _ h2 (osOpen_grows w1 _)
    · next file w2 h2 =>
      have g2 := grows_of_pair w1 w2 _ _ h2 (osOpen_grows w1 _)
      split
      · next document1 w3 h3 =>
        exact g2.trans (grows_of_middle w2 w3 _ _ _ h3
          (runSteps_grows lib env fp.file file pendingSteps w2 document))
      · next document1 w3 h3 =>
        exact g2.trans ((grows_of_middle w2 w3 _ _ _ h3
          (runSteps_grows lib env fp.file file pendingSteps w2 document)).trans
          (record_grows _ _))

/-- C8, amended: an operation with neither a document nor a file path is a no-op that
leaves the processor and the collaborators untouched; an operation with a document,
whether or not a file path is set as well, sets the current document and starts the
reprocess path, whose first call is the pending-steps query for that document; an
operation with a file path and no document starts the new-file path. -/
theorem process_dispatch (lib : Library) (env : Env) (fp : FileProcessor) (w : World)
    (op : fileOp) :
    (op.document = none → op.file = "" → process lib env fp w op = (fp, w)) ∧
      (∀ document, op.document = some document →
        process lib env fp w op =
            processDocument lib env { fp with document := some document } w ∧
          (w.trace ++ [.GetDocumentPendingSteps document.Id]) <+:
            (process lib env fp w op).2.trace) ∧
      (op.document = none → op.file ≠ "" → process lib env fp w op = processFile lib env fp w) := by
  refine ⟨fun hd hf => ?_, fun document hd => ?_, fun hd hf => ?_⟩
  · simp [process, hd, hf]
  · have key : process lib env fp w op =
        processDocument lib env { fp with document := some document } w := by
      simp [process, hd]
    exact ⟨key, key ▸ processDocument_first_call lib env _ w document rfl⟩
  · simp [process, hd, hf]

/-- C8, amended, on the reference world: the empty operation changes nothing, and the
operation with both a document and the file path `scan.pdf` queries the pending steps
of the document. -/
theorem process_dispatch_witness :
    process refLib refEnv newFileProcessor (refWorld "changed" (fun _ => false)) ⟨none, ""⟩ =
        (newFileProcessor, refWorld "changed" (fun _ => false)) ∧
      ((refWorld "changed" (fun _ => false)).trace ++ [.GetDocumentPendingSteps 1]) <+:
        (process refLib refEnv newFileProcessor (refWorld "changed" (fun _ => false))
          ⟨some (storedDocument "old"), "scan.pdf"⟩).2.trace :=
  ⟨(process_dispatch refLib refEnv newFileProcessor (refWorld "changed" (fun _ => false))
      ⟨none, ""⟩).1 rfl rfl,
    ((process_dispatch refLib refEnv newFileProcessor (refWorld "changed" (fun _ => false))
      ⟨some (storedDocument "old"), "scan.pdf"⟩).2.1 (storedDocument "old") rfl).2⟩

/-- C8 as stated fails for an operation with both fields set: with the document of hash
`old` and the file path `scan.pdf` the reprocess path runs. The current document of the
processor is set, and the collaborators are called: the pending steps are queried, the
file of the document is opened, the compute-hash step runs and the file is closed. -/
theorem process_both_set_runs :
    (⟨some (storedDocument "old"), "scan.pdf"⟩ : fileOp).document ≠ none ∧
      (⟨some (storedDocument "old"), "scan.pdf"⟩ : fileOp).file ≠ "" ∧
      (process refLib refEnv newFileProcessor (refWorld "changed" (fun _ => false))
        ⟨some (storedDocument "old"), "scan.pdf"⟩).1 ≠ newFileProcessor ∧
      (process refLib refEnv newFileProcessor (refWorld "changed" (fun _ => false))
        ⟨some (storedDocument "old"), "scan.pdf"⟩).1.document =
          some (storedDocument "sha:changed") ∧
      (process refLib refEnv newFileProcessor (refWorld "changed" (fun _ => false))
        ⟨some (storedDocument "old"), "scan.pdf"⟩).2.trace =
        [.GetDocumentPendingSteps 1, .Open "documents/old",
          .StartProcessItem ⟨1, .ProcessHash⟩ "calculate hash", .GetHash "documents/old",
          .Rename "documents/old" "documents/sha:changed",
          .DocumentUpdate (storedDocument "sha:changed"),
          .MarkProcessingDone ⟨1, .ProcessHash⟩ true,
          .JobUpdate ⟨1, "calculate hash", .JobFinished⟩, .Close "documents/old"] := by
  refine ⟨by decide, by decide, by decide, by decide, by decide⟩

/-! ### `runRules` touches only the fields that the actions own -/

theorem applyRule_frame (lib : Library) (document : Document) (rule : Rule)
    (matched : String) :
    (applyRule lib document rule matched).1.Id = document.Id ∧
      (applyRule lib document rule matched).1.UserId = document.UserId ∧
      (applyRule lib document rule matched).1.Hash = document.Hash ∧
      (applyRule lib document rule matched).1.Filename = document.Filename ∧
      (applyRule lib document rule matched).1.Content = document.Content := by
  unfold applyRule
  split
  · cases document.Metadata <;> simp
  · simp
  · split <;> simp
  · cases document.Tags <;> simp
  · simp
  · simp

theorem documentMatchesFilter_of_content (lib : Library) (document other : Document)
    (rule : Rule) (hContent : other.Content = document.Content) :
    documentMatchesFilter lib other rule = documentMatchesFilter lib document rule := by
  unfold documentMatchesFilter
  rw [hContent]

theorem runRules_frame (lib : Library) (rules : List Rule) :
    ∀ document : Document,
      (runRules lib document rules).1.Id = document.Id ∧
        (runRules lib document rules).1.UserId = document.UserId ∧
        (runRules lib document rules).1.Hash = document.Hash ∧
        (runRules lib document rules).1.Filename = document.Filename ∧
        (runRules lib document rules).1.Content = document.Content := by
  induction rules with
  | nil => intro document; exact ⟨rfl, rfl, rfl, rfl, rfl⟩
  | cons rule rest ih =>
    intro document
    rw [runRules_cons]
    rcases h : documentMatchesFilter lib document rule with ⟨m, _ | e⟩
    · by_cases hm : m = ""
      · simp only [hm, ne_eq, not_true_eq_false, if_false]
        exact ih document
      · simp only [hm, ne_eq, not_false_eq_true, if_true]
        obtain ⟨a1, a2, a3, a4, a5⟩ := applyRule_frame lib document rule m
        obtain ⟨b1, b2, b3, b4, b5⟩ := ih (applyRule lib document rule m).1
        exact ⟨b1.trans a1, b2.trans a2, b3.trans a3, b4.trans a4, b5.trans a5⟩
    · exact ih document

/-- C14: `runRules` touches only the fields that the actions own. The id, the owning
user id, the hash, the source filename and the extracted content of the document after
`runRules` are those before; hence the match of a rule against the document that the
rules before it produced is its match against the original document. -/
theorem runRules_preserves_identity (lib : Library) (document : Document)
    (rules : List Rule) :
    (runRules lib document rules).1.Id = document.Id ∧
      (runRules lib document rules).1.UserId = document.UserId ∧
      (runRules lib document rules).1.Hash = document.Hash ∧
      (runRules lib document rules).1.Filename = document.Filename ∧
      (runRules lib document rules).1.Content = document.Content ∧
      ∀ (before : List Rule) (rule : Rule) (after : List Rule),
        rules = before ++ rule :: after →
          documentMatchesFilter lib (runRules lib document before).1 rule =
            documentMatchesFilter lib document rule := by
  obtain ⟨h1, h2, h3, h4, h5⟩ := runRules_frame lib rules document
  refine ⟨h1, h2, h3, h4, h5, fun before rule after _ => ?_⟩
  exact documentMatchesFilter_of_content lib document _ rule
    (runRules_frame lib before document).2.2.2.2

/-- C14, on the reference library: a rename rule and a set-description rule change the
name and the description and leave the content as it was, and the third rule matches as
it does on the original document. -/
theorem runRules_preserves_identity_witness :
    (runRules refLib (contentDocument "x")
        [actionRule (actionOf .RuleActionRename 0 0 "" 0),
          actionRule (actionOf .RuleActionSetDescription 0 0 "" 0),
          filterRule .ExactRule "X"]).1.Content = "x" ∧
      documentMatchesFilter refLib
          (runRules refLib (contentDocument "x")
            [actionRule (actionOf .RuleActionRename 0 0 "" 0),
              actionRule (actionOf .RuleActionSetDescription 0 0 "" 0)]).1
          (filterRule .ExactRule "X") =
        documentMatchesFilter refLib (contentDocument "x") (filterRule .ExactRule "X") :=
  have h := runRules_preserves_identity refLib (contentDocument "x")
    [actionRule (actionOf .RuleActionRename 0 0 "" 0),
      actionRule (actionOf .RuleActionSetDescription 0 0 "" 0),
      filterRule .ExactRule "X"]
  ⟨h.2.2.2.2.1,
    h.2.2.2.2.2 [actionRule (actionOf .RuleActionRename 0 0 "" 0),
      actionRule (actionOf .RuleActionSetDescription 0 0 "" 0)]
      (filterRule .ExactRule "X") [] rfl⟩

/-! ### Which calls a run makes -/

theorem within_refl (allowed : Event → Bool) (w : World) : Within allowed w w :=
  ⟨[], by simp, by simp⟩

theorem within_trans (allowed : Event → Bool) (w w1 w2 : World)
    (h1 : Within allowed w w1) (h2 : Within allowed w1 w2) : Within allowed w w2 := by
  obtain ⟨c1, t1, a1⟩ := h1
  obtain ⟨c2, t2, a2⟩ := h2
  refine ⟨c1 ++ c2, by rw [t2, t1, List.append_assoc], fun e he => ?_⟩
  rcases List.mem_append.1 he with h | h
  · exact a1 e h
  · exact a2 e h

theorem within_call (allowed : Event → Bool) (w w1 : World) (e : Event)
    (ht : w1.trace = w.trace ++ [e]) (ha : allowed e = true) : Within allowed w w1 :=
  ⟨[e], ht, by simpa using ha⟩

theorem within_of_pair {α : Type} (allowed : Event → Bool) (w w1 : World) (p : α × World)
    (r : α) (h : p = (r, w1)) (hp : Within allowed w p.2) : Within allowed w w1 := by
  subst h
  exact hp

theorem within_of_triple {α β : Type} (allowed : Event → Bool) (w w1 : World)
    (p : α × β × World) (r : α) (s : β) (h : p = (r, s, w1))
    (hp : Within allowed w p.2.2) : Within allowed w w1 := by
  subst h
  exact hp

theorem marks_of_within (allowed : Event → Bool) (w w1 : World)
    (hAllowed : ∀ item ok, allowed (.MarkProcessingDone item ok) = false)
    (h : Within allowed w w1) : marks (newCalls w w1) = [] := by
  obtain ⟨calls, ht, ha⟩ := h
  rw [newCalls_append w w1 calls ht]
  clear ht
  induction calls with
  | nil => rfl
  | cons e rest ih =>
    have hrest := ih (fun x hx => ha x (List.mem_cons_of_mem _ hx))
    have he := ha e (List.mem_cons_self _ _)
    cases e with
    | MarkProcessingDone item ok =>
      rw [hAllowed item ok] at he
      exact absurd he (by decide)
    | _ => simpa [marks] using hrest

theorem JobCreate_within (allowed : Event → Bool) (w : World) (documentId : Int) (job : Job)
    (ha : allowed (.JobCreate documentId job) = true) :
    Within allowed w (JobCreate w documentId job).2 :=
  within_call allowed w _ _ rfl ha

theorem JobUpdate_within (allowed : Event → Bool) (w : World) (job : Job)
    (ha : allowed (.JobUpdate job) = true) : Within allowed w (persistJob w job) :=
  within_call allowed w _ _ rfl ha

theorem ConvertImageCommand_within (allowed : Event → Bool) (w : World) (args : List String)
    (ha : allowed (.ConvertImageCommand args) = true) :
    Within allowed w (ConvertImageCommand w args).2 :=
  within_call allowed w _ _ rfl ha

theorem SetImage_within (allowed : Event → Bool) (w : World) (path : String)
    (ha : allowed (.SetImage path) = true) : Within allowed w (SetImage w path).2 :=
  within_call allowed w _ _ rfl ha

theorem Text_within (allowed : Event → Bool) (w : World) (imageFile : String)
    (ha : allowed .Text = true) : Within allowed w (Text w imageFile).2.2 := by
  refine within_call allowed w _ _ ?_ ha
  unfold Text
  split <;> rfl

theorem SetDocumentContent_within (allowed : Event → Bool) (w : World) (documentId : Int)
    (text : String) (ha : allowed (.SetDocumentContent documentId text) = true) :
    Within allowed w (SetDocumentContent w documentId text).2 := by
  refine within_call allowed w _ _ ?_ ha
  unfold SetDocumentContent
  split <;> rfl

theorem recognizeContent_within (w : World) (document : Document) (imageFile : String) :
    Within extractionCall w (recognizeContent w document imageFile).2.2 := by
  unfold recognizeContent
  dsimp only
  have g0 := JobCreate_within extractionCall w document.Id
    { DocumentId := document.Id, Message := "Parse content with tesseract",
      Status := .JobAwaiting } rfl
  split
  · next err w2 h2 =>
    exact within_trans _ _ _ _ g0 (within_trans _ _ _ _
      (within_of_pair _ _ w2 _ _ h2 (SetImage_within _ _ _ rfl))
      (JobUpdate_within _ _ _ rfl))
  · next w2 h2 =>
    have g2 := within_trans _ _ _ _ g0
      (within_of_pair _ _ w2 _ _ h2 (SetImage_within _ _ _ rfl))
    split
    · next text err w3 h3 =>
      exact within_trans _ _ _ _ g2 (within_trans _ _ _ _
        (within_of_triple _ w2 w3 _ _ _ h3 (Text_within _ w2 _ rfl))
        (JobUpdate_within _ _ _ rfl))
    · next text w3 h3 =>
      have g3 := within_trans _ _ _ _ g2
        (within_of_triple _ w2 w3 _ _ _ h3 (Text_within _ w2 _ rfl))
      split
      · next err w4 h4 =>
        exact within_trans _ _ _ _ g3 (within_trans _ _ _ _
          (within_of_pair _ w3 w4 _ _ h4 (SetDocumentContent_within _ w3 _ _ rfl))
          (JobUpdate_within _ _ _ rfl))
      · next w4 h4 =>
        exact within_trans _ _ _ _ g3 (within_trans _ _ _ _
          (within_of_pair _ w3 w4 _ _ h4 (SetDocumentContent_within _ w3 _ _ rfl))
          (JobUpdate_within _ _ _ rfl))

theorem parseContent_within (lib : Library) (env : Env) (w : World) (file : String)
    (document : Document) :
    Within extractionCall w (parseContent lib env w file document).2.2 := by
  unfold parseContent
  split
  · dsimp only
    have g0 := JobCreate_within extractionCall w document.Id
      { DocumentId := document.Id, Message := "Render image from pdf content",
        Status := .JobAwaiting } rfl
    split
    · next err w2 h2 =>
      exact within_trans _ _ _ _ g0 (within_trans _ _ _ _
        (within_of_pair _ _ w2 _ _ h2 (ConvertImageCommand_within _ _ _ rfl))
        (JobUpdate_within _ _ _ rfl))
    · next w2 h2 =>
      exact within_trans _ _ _ _ g0 (within_trans _ _ _ _
        (within_of_pair _ _ w2 _ _ h2 (ConvertImageCommand_within _ _ _ rfl))
        (within_trans _ _ _ _ (JobUpdate_within _ _ _ rfl)
          (recognizeContent_within _ _ _)))
  · exact recognizeContent_within _ _ _

/-- C13: the code does not do what the claim says. `parseContent` records no completion
outcome at all: in every run the calls it makes contain no `MarkProcessingDone`. On the
scanned image `inbox/scan.png`, a run in which text recognition succeeds returns no
error and sets the content, and a run in which text recognition fails (the third call)
returns an error and keeps the content `earlier text`; both only create and update a
job record. -/
theorem parseContent_records_no_outcome :
    (∀ (lib : Library) (env : Env) (w : World) (file : String) (document : Document),
        marks (newCalls w (parseContent lib env w file document).2.2) = []) ∧
      (parseContent refLib refEnv (scanWorld (fun _ => false)) "inbox/scan.png"
          (contentDocument "earlier text")).2.1 = none ∧
      (parseContent refLib refEnv (scanWorld (fun _ => false)) "inbox/scan.png"
          (contentDocument "earlier text")).1.Content = "invoice-4471" ∧
      (parseContent refLib refEnv (scanWorld (fun _ => false)) "inbox/scan.png"
          (contentDocument "earlier text")).2.2.trace =
        [.JobCreate 1 ⟨1, "Parse content with tesseract", .JobAwaiting⟩,
          .SetImage "", .Text, .SetDocumentContent 1 "invoice-4471",
          .JobUpdate ⟨1, "Parse content with tesseract", .JobFinished⟩] ∧
      (parseContent refLib refEnv (scanWorld (fun n => n == 2)) "inbox/scan.png"
          (contentDocument "earlier text")).2.1 ≠ none ∧
      (parseContent refLib refEnv (scanWorld (fun n => n == 2)) "inbox/scan.png"
          (contentDocument "earlier text")).1.Content = "earlier text" ∧
      (parseContent refLib refEnv (scanWorld (fun n => n == 2)) "inbox/scan.png"
          (contentDocument "earlier text")).2.2.trace =
        [.JobCreate 1 ⟨1, "Parse content with tesseract", .JobAwaiting⟩,
          .SetImage "", .Text,
          .JobUpdate ⟨1, "Parse content with tesseract; input/output error",
            .JobFailure⟩] := by
  refine ⟨fun lib env w file document => ?_, by decide, by decide, by decide, by decide,
    by decide, by decide⟩
  exact marks_of_within extractionCall w _ (fun _ _ => rfl)
    (parseContent_within lib env w file document)

theorem within_mono (allowed wider : Event → Bool) (w w1 : World)
    (hWider : ∀ e, allowed e = true → wider e = true) (h : Within allowed w w1) :
    Within wider w w1 := by
  obtain ⟨calls, ht, ha⟩ := h
  exact ⟨calls, ht, fun e he => hWider e (ha e he)⟩

theorem StartProcessItem_within (allowed : Event → Bool) (w : World) (item : ProcessItem)
    (label : String) (ha : allowed (.StartProcessItem item label) = true) :
    Within allowed w (StartProcessItem w item label).2 :=
  within_call allowed w _ _ rfl ha

theorem getHash_within (allowed : Event → Bool) (env : Env) (w : World) (file : File)
    (ha : allowed (.GetHash file.name) = true) :
    Within allowed w (getHash env w file).2.2 := by
  refine within_call allowed w _ _ ?_ ha
  unfold getHash
  split <;> rfl

theorem osRename_within (allowed : Event → Bool) (w : World) (oldpath newpath : String)
    (ha : allowed (.Rename oldpath newpath) = true) :
    Within allowed w (osRename w oldpath newpath).2 := by
  refine within_call allowed w _ _ ?_ ha
  unfold osRename
  split
  · rfl
  · split <;> rfl

theorem DocumentUpdate_within (allowed : Event → Bool) (w : World) (document : Document)
    (ha : allowed (.DocumentUpdate document) = true) :
    Within allowed w (DocumentUpdate w document).2 := by
  refine within_call allowed w _ _ ?_ ha
  unfold DocumentUpdate
  split <;> rfl

theorem persistProcess_within (allowed : Event → Bool) (w : World) (process : ProcessItem)
    (job : Job)
    (hMark : allowed (.MarkProcessingDone process (decide (job.Status = .JobFinished))) = true)
    (hJob : allowed (.JobUpdate job) = true) :
    Within allowed w (persistProcess w process job) := by
  refine ⟨_, (persistProcess_trace w process job).1, fun e he => ?_⟩
  simp only [List.mem_cons, List.mem_singleton, List.not_mem_nil, or_false] at he
  rcases he with rfl | rfl
  · exact hMark
  · exact hJob

theorem updateHash_within (env : Env) (w : World) (document : Document) (file : File) :
    Within notClose w (updateHash env w document file).2.2 := by
  unfold updateHash
  dsimp only
  split
  · next err w1 h =>
    exact within_of_pair _ w w1 _ _ h (StartProcessItem_within _ w _ _ rfl)
  · next job w1 h =>
    have g1 := within_of_pair _ w w1 _ _ h (StartProcessItem_within notClose w _ _ rfl)
    split
    · next hash err w2 h2 =>
      exact within_trans _ _ _ _ g1 (within_trans _ _ _ _
        (within_of_triple _ w1 w2 _ _ _ h2 (getHash_within _ env w1 file rfl))
        (persistProcess_within _ _ _ _ rfl rfl))
    · next hash w2 h2 =>
      have g2 := within_trans _ _ _ _ g1
        (within_of_triple _ w1 w2 _ _ _ h2 (getHash_within notClose env w1 file rfl))
      split
      · split
        · next err w3 h3 =>
          exact within_trans _ _ _ _ g2 (within_trans _ _ _ _
            (within_of_pair _ w2 w3 _ _ h3 (osRename_within _ w2 _ _ rfl))
            (persistProcess_within _ _ _ _ rfl rfl))
        · next w3 h3 =>
          have g3 := within_trans _ _ _ _ g2
            (within_of_pair _ w2 w3 _ _ h3 (osRename_within notClose w2 _ _ rfl))
          split
          · next err w4 h4 =>
            exact within_trans _ _ _ _ g3 (within_trans _ _ _ _
              (within_of_pair _ w3 w4 _ _ h4 (DocumentUpdate_within _ w3 _ rfl))
              (persistProcess_within _ _ _ _ rfl rfl))
          · next w4 h4 =>
            exact within_trans _ _ _ _ g3 (within_trans _ _ _ _
              (within_of_pair _ w3 w4 _ _ h4 (DocumentUpdate_within _ w3 _ rfl))
              (persistProcess_within _ _ _ _ rfl rfl))
      · exact within_trans _ _ _ _ g2 (persistProcess_within _ _ _ _ rfl rfl)

theorem generateThumbnail_within (env : Env) (w : World) (document : Document)
    (file : File) : Within notClose w (generateThumbnail env w document file).2 := by
  unfold generateThumbnail
  dsimp only
  split
  · next err w1 h =>
    exact within_of_pair _ w w1 _ _ h (StartProcessItem_within _ w _ _ rfl)
  · next job w1 h =>
    have g1 := within_of_pair _ w w1 _ _ h (StartProcessItem_within notClose w _ _ rfl)
    split
    · next err w2 h2 =>
      exact within_trans _ _ _ _ g1 (within_trans _ _ _ _
        (within_of_pair _ w1 w2 _ _ h2 (ConvertImageCommand_within _ w1 _ rfl))
        (persistProcess_within _ _ _ _ rfl rfl))
    · next w2 h2 =>
      exact within_trans _ _ _ _ g1 (within_trans _ _ _ _
        (within_of_pair _ w1 w2 _ _ h2 (ConvertImageCommand_within _ w1 _ rfl))
        (persistProcess_within _ _ _ _ rfl rfl))

theorem parseContent_no_close (lib : Library) (env : Env) (w : World) (file : String)
    (document : Document) : Within notClose w (parseContent lib env w file document).2.2 :=
  within_mono extractionCall notClose w _
    (fun e he => by cases e <;> first | rfl | exact Bool.noConfusion he)
    (parseContent_within lib env w file document)

theorem within_of_middle {α β : Type} (allowed : Event → Bool) (w w1 : World)
    (p : α × World × β) (r : α) (s : β) (h : p = (r, w1, s))
    (hp : Within allowed w p.2.1) : Within allowed w w1 := by
  subst h
  exact hp

theorem runSteps_within (lib : Library) (env : Env) (fileName : String) (file : File)
    (steps : List ProcessItem) :
    ∀ (w : World) (document : Document),
      Within notClose w (runSteps lib env fileName file w document steps).2.1 := by
  induction steps with
  | nil =>
    intro w document
    exact within_refl _ _
  | cons step rest ih =>
    intro w document
    rw [runSteps]
    split
    · split
      · next document1 err w1 h =>
        exact within_of_triple _ w w1 _ _ _ h (updateHash_within env w document file)
      · next document1 w1 h =>
        exact within_trans _ _ _ _
          (within_of_triple _ w w1 _ _ _ h (updateHash_within env w document file))
          (ih w1 document1)
    · split
      · next err w1 h =>
        exact within_of_pair _ w w1 _ _ h (generateThumbnail_within env w document file)
      · next w1 h =>
        exact within_trans _ _ _ _
          (within_of_pair _ w w1 _ _ h (generateThumbnail_within env w document file))
          (ih w1 document)
    · split
      · next document1 err w1 h =>
        exact within_of_triple _ w w1 _ _ _ h
          (parseContent_no_close lib env w fileName document)
      · next document1 w1 h =>
        exact within_trans _ _ _ _
          (within_of_triple _ w w1 _ _ _ h
            (parseContent_no_close lib env w fileName document))
          (ih w1 document1)
    · exact ih w document

theorem osOpen_within (allowed : Event → Bool) (w : World) (path : String)
    (ha : allowed (.Open path) = true) : Within allowed w (osOpen w path).2 :=
  within_call allowed w _ _ rfl ha

theorem no_close_of_within (w w1 : World) (h : Within notClose w w1) (name : String) :
    Event.Close name ∉ newCalls w w1 := by
  obtain ⟨calls, ht, ha⟩ := h
  rw [newCalls_append w w1 calls ht]
  intro hmem
  exact Bool.noConfusion (ha _ hmem)

/-- C12: the code does not do what the claim says. Whenever the file of the document was
opened and the loop over the pending steps is left from inside (a step returned an
error), `processDocument` returns without closing the file: no `Close` is among the
calls it made. On the reference world in which hashing fails (the fourth call), the
file `documents/old` is opened, the compute-hash step is started and marked failed, and
the run ends there, the file still open. -/
theorem processDocument_step_error_skips_close :
    (∀ (lib : Library) (env : Env) (fp : FileProcessor) (w w1 w2 w3 : World)
        (document document1 : Document) (pendingSteps : List ProcessItem) (file : File),
        fp.document = some document →
        GetDocumentPendingSteps w document.Id = (.ok pendingSteps, w1) →
        osOpen w1 (env.Join env.DocumentsDir document.Hash) = (.ok file, w2) →
        runSteps lib env fp.file file w2 document pendingSteps = (document1, w3, false) →
        ∀ name, Event.Close name ∉ newCalls w (processDocument lib env fp w).2) ∧
      (osOpen
          (GetDocumentPendingSteps (refWorld "changed" (fun n => n == 3)) 1).2
          "documents/old").1 = .ok ⟨"documents/old", "changed"⟩ ∧
      (process refLib refEnv newFileProcessor (refWorld "changed" (fun n => n == 3))
          ⟨some (storedDocument "old"), ""⟩).2.trace =
        [.GetDocumentPendingSteps 1, .Open "documents/old",
          .StartProcessItem ⟨1, .ProcessHash⟩ "calculate hash", .GetHash "documents/old",
          .MarkProcessingDone ⟨1, .ProcessHash⟩ false,
          .JobUpdate ⟨1, "calculate hash", .JobFailure⟩] ∧
      Event.Close "documents/old" ∉
        (process refLib refEnv newFileProcessor (refWorld "changed" (fun n => n == 3))
          ⟨some (storedDocument "old"), ""⟩).2.trace := by
  refine ⟨?_, by rfl, by decide, by decide⟩
  intro lib env fp w w1 w2 w3 document document1 pendingSteps file hDocument hPending hOpen
    hSteps name
  have g1 : Within notClose w w1 :=
    within_call notClose w w1 _ (GetDocumentPendingSteps_world w w1 _ _ hPending) rfl
  have g2 : Within notClose w1 w2 :=
    within_of_pair notClose w1 w2 _ _ hOpen (osOpen_within notClose w1 _ rfl)
  have g3 : Within notClose w2 w3 :=
    within_of_middle notClose w2 w3 _ _ _ hSteps
      (runSteps_within lib env fp.file file pendingSteps w2 document)
  have hres : (processDocument lib env fp w).2 = w3 := by
    unfold processDocument
    rw [hDocument]
    simp only [hPending, hOpen, hSteps]
  rw [hres]
  exact no_close_of_within w w3
    (within_trans _ _ _ _ g1 (within_trans _ _ _ _ g2 g3)) name

/-! ### The new-file path and the Document Store -/

theorem fileClose_within (allowed : Event → Bool) (w : World) (file : File)
    (ha : allowed (.Close file.name) = true) : Within allowed w (fileClose w file) :=
  within_call allowed w _ _ rfl ha

theorem osRemove_within (allowed : Event → Bool) (w : World) (path : String)
    (ha : allowed (.Remove path) = true) : Within allowed w (osRemove w path).2 := by
  refine within_call allowed w _ _ ?_ ha
  unfold osRemove
  split
  · rfl
  · split <;> rfl

theorem osRemove_documents (w : World) (path : String) :
    (osRemove w path).2.documents = w.documents := by
  unfold osRemove
  split
  · rfl
  · split <;> rfl

theorem DocumentGetByHash_within (allowed : Event → Bool) (w : World) (hash : String)
    (ha : allowed (.DocumentGetByHash hash) = true) :
    Within allowed w (DocumentGetByHash w hash).2.2 := by
  refine within_call allowed w _ _ ?_ ha
  unfold DocumentGetByHash
  split
  · rfl
  · split <;> rfl

theorem DocumentGetByHash_documents (w : World) (hash : String) :
    (DocumentGetByHash w hash).2.2.documents = w.documents := by
  unfold DocumentGetByHash
  split
  · rfl
  · split <;> rfl

theorem getHash_documents (env : Env) (w : World) (file : File) :
    (getHash env w file).2.2.documents = w.documents := by
  unfold getHash
  split <;> rfl

/-- The deferred `cleanup` resets the processor to idle, makes only closing and removal
calls, and leaves the Document Store as it was. -/
theorem cleanup_spec (fp : FileProcessor) (w : World) :
    (cleanup fp w).1 = newFileProcessor ∧ Within lookupCall w (cleanup fp w).2 ∧
      (cleanup fp w).2.documents = w.documents := by
  refine ⟨rfl, ?_, ?_⟩
  · unfold cleanup
    dsimp only
    cases fp.rawFile <;> cases fp.tempFile <;> dsimp only
    · exact within_refl _ _
    · exact within_trans _ _ _ _ (fileClose_within _ _ _ rfl) (osRemove_within _ _ _ rfl)
    · exact fileClose_within _ _ _ rfl
    · exact within_trans _ _ _ _ (fileClose_within _ _ _ rfl)
        (within_trans _ _ _ _ (fileClose_within _ _ _ rfl) (osRemove_within _ _ _ rfl))
  · unfold cleanup
    dsimp only
    cases fp.rawFile <;> cases fp.tempFile <;> dsimp only
    · rw [osRemove_documents]; rfl
    · rfl
    · rw [osRemove_documents]; rfl

theorem isDuplicate_quiet (env : Env) (w : World) (rawFile : File) :
    Within lookupCall w (isDuplicate env w rawFile).2.2 ∧
      (isDuplicate env w rawFile).2.2.documents = w.documents := by
  unfold isDuplicate
  split
  · next hash err w1 h =>
    exact ⟨within_of_triple _ w w1 _ _ _ h (getHash_within _ env w rawFile rfl),
      by rw [← getHash_documents env w rawFile, h]⟩
  · next hash w1 h =>
    have g1 := within_of_triple _ w w1 _ _ _ h (getHash_within lookupCall env w rawFile rfl)
    have d1 : w1.documents = w.documents := by rw [← getHash_documents env w rawFile, h]
    have key : ∀ (found : Option Document) (err : Option Error) (w2 : World),
        DocumentGetByHash w1 hash = (found, err, w2) →
          Within lookupCall w w2 ∧ w2.documents = w.documents := by
      intro found err w2 h2
      exact ⟨within_trans _ _ _ _ g1
          (within_of_triple _ w1 w2 _ _ _ h2 (DocumentGetByHash_within _ w1 hash rfl)),
        by rw [← d1, ← DocumentGetByHash_documents w1 hash, h2]⟩
    split
    · next found err w2 h2 =>
      split <;> exact key _ _ _ h2
    · next found w2 h2 => exact key _ _ _ h2
    · next w2 h2 => exact key _ _ _ h2

theorem DocumentGetByHash_not_found (w w1 : World) (hash : String)
    (h : DocumentGetByHash w hash = (none, some .ErrRecordNotFound, w1)) :
    hash ∉ storedHashes w := by
  unfold DocumentGetByHash at h
  split at h
  · simp [faultError] at h
  · split at h
    · simp at h
    · next hfind =>
      intro hmem
      obtain ⟨d, hd, hdh⟩ := List.mem_map.1 hmem
      have := List.find?_eq_none.1 hfind d hd
      simp only [decide_eq_true_eq] at this
      exact this hdh

theorem DocumentGetByHash_found (w w1 : World) (hash : String) (found : Option Document)
    (h : DocumentGetByHash w hash = (found, none, w1)) : found ≠ none := by
  unfold DocumentGetByHash at h
  split at h
  · simp at h
  · split at h
    · simp only [Prod.mk.injEq] at h
      rw [← h.1]
      simp
    · simp at h

/-- When `isDuplicate` answers "no duplicate" without an error, the hash of the file was
computed and the lookup by that hash reported `ErrRecordNotFound`. -/
theorem isDuplicate_not_found (env : Env) (w w2 : World) (rawFile : File)
    (h : isDuplicate env w rawFile = (false, none, w2)) :
    ∃ w1, getHash env w rawFile = (env.digest rawFile.content, none, w1) ∧
      DocumentGetByHash w1 (env.digest rawFile.content) =
        (none, some .ErrRecordNotFound, w2) := by
  unfold isDuplicate at h
  rcases hg : getHash env w rawFile with ⟨hash, _ | err, w1⟩
  · obtain ⟨-, hd, -⟩ := getHash_world env w w1 rawFile hash none hg
    obtain ⟨rfl, -⟩ := hd rfl
    rw [hg] at h
    dsimp only at h
    rcases hl : DocumentGetByHash w1 (env.digest rawFile.content) with ⟨found, _ | e, wb⟩
    · have hne := DocumentGetByHash_found w1 wb _ found hl
      rw [hl] at h
      cases found with
      | none => exact absurd rfl hne
      | some d => simp at h
    · rw [hl] at h
      by_cases he : e = .ErrRecordNotFound
      · subst he
        simp only [if_true, Prod.mk.injEq, true_and] at h
        have hfound : found = none := by
          unfold DocumentGetByHash at hl
          split at hl
          · simp only [Prod.mk.injEq] at hl
            exact hl.1.symm
          · split at hl
            · simp at hl
            · simp only [Prod.mk.injEq] at hl
              exact hl.1.symm
        exact ⟨w1, rfl, by rw [hl, hfound, h]⟩
      · simp [he] at h
  · rw [hg] at h
    simp at h

theorem hashes_of_pair {α : Type} (w w1 : World) (p : α × World) (r : α)
    (h : p = (r, w1)) (hp : storedHashes p.2 = storedHashes w) :
    storedHashes w1 = storedHashes w := by
  subst h
  exact hp

theorem hashes_of_triple {α β : Type} (w w1 : World) (p : α × β × World) (r : α) (s : β)
    (h : p = (r, s, w1)) (hp : storedHashes p.2.2 = storedHashes w) :
    storedHashes w1 = storedHashes w := by
  subst h
  exact hp

theorem persistProcess_hashes (w : World) (process : ProcessItem) (job : Job) :
    storedHashes (persistProcess w process job) = storedHashes w := by
  unfold storedHashes
  rw [(persistProcess_trace w process job).2.2]

theorem Text_hashes (w : World) (imageFile : String) :
    storedHashes (Text w imageFile).2.2 = storedHashes w := by
  unfold Text
  split <;> rfl

theorem SetDocumentContent_hashes (w : World) (documentId : Int) (text : String) :
    storedHashes (SetDocumentContent w documentId text).2 = storedHashes w := by
  unfold SetDocumentContent
  split
  · rfl
  · simp only [storedHashes, World.record, List.map_map]
    apply List.map_congr_left
    intro d _
    simp only [Function.comp]
    split <;> rfl

theorem generateThumbnail_hashes (env : Env) (w : World) (document : Document)
    (file : File) :
    storedHashes (generateThumbnail env w document file).2 = storedHashes w := by
  unfold generateThumbnail
  dsimp only
  split
  · next err w1 h => exact hashes_of_pair w w1 _ _ h rfl
  · next job w1 h =>
    have g1 := hashes_of_pair w w1 _ _ h rfl
    split
    · next err w2 h2 =>
      exact (persistProcess_hashes _ _ _).trans ((hashes_of_pair w1 w2 _ _ h2 rfl).trans g1)
    · next w2 h2 =>
      exact (persistProcess_hashes _ _ _).trans ((hashes_of_pair w1 w2 _ _ h2 rfl).trans g1)

theorem recognizeContent_hashes (w : World) (document : Document) (imageFile : String) :
    storedHashes (recognizeContent w document imageFile).2.2 = storedHashes w := by
  unfold recognizeContent
  dsimp only
  split
  · next err w2 h2 => exact hashes_of_pair _ w2 _ _ h2 rfl
  · next w2 h2 =>
    have g2 : storedHashes w2 = storedHashes w := hashes_of_pair _ w2 _ _ h2 rfl
    split
    · next text err w3 h3 =>
      exact (hashes_of_triple w2 w3 _ _ _ h3 (Text_hashes w2 _)).trans g2
    · next text w3 h3 =>
      have g3 := (hashes_of_triple w2 w3 _ _ _ h3 (Text_hashes w2 _)).trans g2
      split
      · next err w4 h4 =>
        exact (hashes_of_pair w3 w4 _ _ h4 (SetDocumentContent_hashes w3 _ _)).trans g3
      · next w4 h4 =>
        exact (hashes_of_pair w3 w4 _ _ h4 (SetDocumentContent_hashes w3 _ _)).trans g3

theorem parseContent_hashes (lib : Library) (env : Env) (w : World) (file : String)
    (document : Document) :
    storedHashes (parseContent lib env w file document).2.2 = storedHashes w := by
  unfold parseContent
  split
  · dsimp only
    split
    · next err w2 h2 => exact hashes_of_pair _ w2 _ _ h2 rfl
    · next w2 h2 =>
      have g2 : storedHashes w2 = storedHashes w := hashes_of_pair _ w2 _ _ h2 rfl
      exact (recognizeContent_hashes _ _ _).trans g2
  · exact recognizeContent_hashes _ _ _

/-- What `createNewDocumentRecord` does to the Document Store: nothing when it returns
an error, and one more record, with the digest of the file as its hash, when it does
not. -/
theorem createNewDocumentRecord_spec (env : Env) (fp : FileProcessor) (w : World)
    (rawFile : File) :
    ((createNewDocumentRecord env fp w rawFile).2.1 ≠ none ∧
        storedHashes (createNewDocumentRecord env fp w rawFile).2.2 = storedHashes w) ∨
      ((createNewDocumentRecord env fp w rawFile).2.1 = none ∧
        storedHashes (createNewDocumentRecord env fp w rawFile).2.2 =
          storedHashes w ++ [env.digest rawFile.content]) := by
  unfold createNewDocumentRecord getHash DocumentCreate
  dsimp only
  cases h1 : w.fails
  · simp only [Bool.false_eq_true, if_false]
    cases h2 : (w.record (.GetHash rawFile.name)).fails
    · right
      simp [storedHashes, World.record]
    · left
      simp [storedHashes, World.record]
  · left
    simp [storedHashes, World.record]

theorem cleanup_hashes (fp : FileProcessor) (w : World) :
    storedHashes (cleanup fp w).2 = storedHashes w := by
  unfold storedHashes
  rw [(cleanup_spec fp w).2.2]

theorem osOpen_ok_world (w w1 : World) (path : String) (file : File)
    (h : osOpen w path = (.ok file, w1)) :
    w1 = w.record (.Open path) ∧ file.name = path := by
  unfold osOpen at h
  simp only [Prod.mk.injEq] at h
  refine ⟨h.2.symm, ?_⟩
  have h1 := h.1
  split at h1
  · simp at h1
  · split at h1
    · simp only [Except.ok.injEq] at h1
      rw [← h1]
    · simp at h1

/-- The two ways a run of `processFile` can go: either it makes only opening, hashing,
lookup and closing calls and leaves the Document Store as it was; or the file was
opened, its hash computed and the lookup by that hash reported `ErrRecordNotFound`,
and then the hashes in the store are the old ones, possibly followed by that hash. -/
theorem processFile_cases (lib : Library) (env : Env) (fp : FileProcessor) (w : World) :
    (Within lookupCall w (processFile lib env fp w).2 ∧
        (processFile lib env fp w).2.documents = w.documents) ∨
      ∃ rawFile w1 w2 w3,
        osOpen w fp.file = (.ok rawFile, w1) ∧
        getHash env w1 rawFile = (env.digest rawFile.content, none, w2) ∧
        DocumentGetByHash w2 (env.digest rawFile.content) =
          (none, some .ErrRecordNotFound, w3) ∧
        (storedHashes (processFile lib env fp w).2 = storedHashes w ∨
          storedHashes (processFile lib env fp w).2 =
            storedHashes w ++ [env.digest rawFile.content]) := by
  unfold processFile
  dsimp only
  split
  · next err w1 h =>
    left
    have g1 := within_of_pair lookupCall w w1 _ _ h (osOpen_within _ w _ rfl)
    have d1 : w1.documents = w.documents := by
      have := congrArg (fun p => p.2.documents) h
      exact this.symm
    exact ⟨within_trans _ _ _ _ g1 (cleanup_spec _ w1).2.1,
      (cleanup_spec _ w1).2.2.trans d1⟩
  · next rawFile w1 h =>
    have g1 := within_of_pair lookupCall w w1 _ _ h (osOpen_within _ w _ rfl)
    have d1 : w1.documents = w.documents := by
      have := congrArg (fun p => p.2.documents) h
      exact this.symm
    have quiet : ∀ (dup : Bool) (err : Option Error) (w2 : World),
        isDuplicate env w1 rawFile = (dup, err, w2) →
          Within lookupCall w w2 ∧ w2.documents = w.documents := by
      intro dup err w2 h2
      have q := isDuplicate_quiet env w1 rawFile
      rw [h2] at q
      exact ⟨within_trans _ _ _ _ g1 q.1, q.2.trans d1⟩
    split
    · next err w2 h2 =>
      left
      obtain ⟨q1, q2⟩ := quiet _ _ _ h2
      exact ⟨within_trans _ _ _ _ q1 (cleanup_spec _ w2).2.1,
        (cleanup_spec _ w2).2.2.trans q2⟩
    · next err w2 h2 =>
      left
      obtain ⟨q1, q2⟩ := quiet _ _ _ h2
      exact ⟨within_trans _ _ _ _ q1 (cleanup_spec _ w2).2.1,
        (cleanup_spec _ w2).2.2.trans q2⟩
    · next w2 h2 =>
      right
      obtain ⟨wa, hHash, hLookup⟩ := isDuplicate_not_found env w1 w2 rawFile h2
      refine ⟨rawFile, w1, wa, w2, h, hHash, hLookup, ?_⟩
      have q2 : storedHashes w2 = storedHashes w := by
        unfold storedHashes
        rw [(quiet _ _ _ h2).2]
      have hc := createNewDocumentRecord_spec env
        { idle := false, document := fp.document, file := fp.file,
          rawFile := some rawFile, tempFile := fp.tempFile } w2 rawFile
      split
      · next created err w3 h3 =>
        rw [h3] at hc
        left
        rcases hc with ⟨-, hs⟩ | ⟨hn, -⟩
        · exact (cleanup_hashes _ w3).trans (hs.trans q2)
        · simp at hn
      · next w3 h3 =>
        rw [h3] at hc
        rcases hc with ⟨-, hs⟩ | ⟨-, hs⟩
        · left
          exact (cleanup_hashes _ w3).trans (hs.trans q2)
        · right
          exact (cleanup_hashes _ w3).trans (hs.trans (by rw [q2]))
      · next document w3 h3 =>
        rw [h3] at hc
        have hs3 : storedHashes w3 = storedHashes w ∨
            storedHashes w3 = storedHashes w ++ [env.digest rawFile.content] := by
          rcases hc with ⟨-, hs⟩ | ⟨-, hs⟩
          · exact Or.inl (hs.trans q2)
          · exact Or.inr (hs.trans (by rw [q2]))
        split
        · next err w4 h4 =>
          have g4 := hashes_of_pair w3 w4 _ _ h4 (generateThumbnail_hashes env w3 _ _)
          rcases hs3 with hs | hs
          · exact Or.inl ((cleanup_hashes _ w4).trans (g4.trans hs))
          · exact Or.inr ((cleanup_hashes _ w4).trans (g4.trans hs))
        · next w4 h4 =>
          have g4 := hashes_of_pair w3 w4 _ _ h4 (generateThumbnail_hashes env w3 _ _)
          have g5 := parseContent_hashes lib env w4 fp.file document
          rcases hs3 with hs | hs
          · exact Or.inl ((cleanup_hashes _ _).trans (g5.trans (g4.trans hs)))
          · exact Or.inr ((cleanup_hashes _ _).trans (g5.trans (g4.trans hs)))

theorem processFile_returns_idle (lib : Library) (env : Env) (fp : FileProcessor)
    (w : World) : (processFile lib env fp w).1 = newFileProcessor := by
  unfold processFile
  dsimp only
  split
  · rfl
  · split
    · rfl
    · rfl
    · split
      · rfl
      · rfl
      · split
        · rfl
        · rfl

theorem processFile_hashes_nodup (lib : Library) (env : Env) (fp : FileProcessor)
    (w : World) (hDistinct : (storedHashes w).Nodup) :
    (storedHashes (processFile lib env fp w).2).Nodup := by
  rcases processFile_cases lib env fp w with ⟨-, hd⟩ | ⟨rawFile, w1, w2, w3, hOpen, hHash,
    hLookup, hs⟩
  · unfold storedHashes
    rw [hd]
    exact hDistinct
  · have hnot := DocumentGetByHash_not_found w2 w3 _ hLookup
    have hw2 : storedHashes w2 = storedHashes w := by
      obtain ⟨hw1, -⟩ := osOpen_ok_world w w1 _ _ hOpen
      obtain ⟨hw2, -, -⟩ := getHash_world env w1 w2 rawFile _ none hHash
      rw [hw2, hw1]
      rfl
    rw [hw2] at hnot
    rcases hs with hs | hs
    · rw [hs]
      exact hDistinct
    · rw [hs]
      exact List.Nodup.append hDistinct (List.nodup_singleton _)
        (by
          intro a ha hb
          rw [List.mem_singleton] at hb
          exact hnot (hb ▸ ha))

/-- C11: idempotent ingestion. In the new-file path, whenever the file is opened, its
hash computed and the lookup by that hash finds a document, `processFile` returns the
processor to idle, leaves the Document Store as it was and makes only opening, hashing,
lookup and closing calls: no Document is created, no thumbnail or parse step is started.
A Document is created only in a run in which the lookup reported `ErrRecordNotFound`.
`processFile` always returns to idle. When the hashes of the stored documents are
pairwise distinct they are so after one ingestion and after a second one, so ingesting
the same bytes twice never leaves two documents with the same hash. -/
theorem processFile_idempotent (lib : Library) (env : Env) (fp : FileProcessor) (w : World) :
    (∀ rawFile w1 hash w2 found w3,
        osOpen w fp.file = (.ok rawFile, w1) →
        getHash env w1 rawFile = (hash, none, w2) →
        DocumentGetByHash w2 hash = (some found, none, w3) →
          (processFile lib env fp w).1 = newFileProcessor ∧
            (processFile lib env fp w).2.documents = w.documents ∧
            ∀ e ∈ newCalls w (processFile lib env fp w).2, lookupCall e = true) ∧
      (∀ created, Event.DocumentCreate created ∈ newCalls w (processFile lib env fp w).2 →
        ∃ rawFile w1 w2 w3,
          osOpen w fp.file = (.ok rawFile, w1) ∧
          getHash env w1 rawFile = (env.digest rawFile.content, none, w2) ∧
          DocumentGetByHash w2 (env.digest rawFile.content) =
            (none, some .ErrRecordNotFound, w3)) ∧
      (processFile lib env fp w).1.idle = true ∧
      ((storedHashes w).Nodup →
        (storedHashes (processFile lib env fp w).2).Nodup ∧
          ∀ again : FileProcessor,
            (storedHashes
              (processFile lib env again (processFile lib env fp w).2).2).Nodup) := by
  refine ⟨?_, ?_, ?_, ?_⟩
  · intro rawFile w1 hash w2 found w3 hOpen hHash hFound
    refine ⟨processFile_returns_idle lib env fp w, ?_⟩
    rcases processFile_cases lib env fp w with ⟨hin, hd⟩ | ⟨rawFile', w1', w2', w3', hOpen',
      hHash', hLookup', -⟩
    · obtain ⟨calls, ht, ha⟩ := hin
      exact ⟨hd, by rw [newCalls_append w _ calls ht]; exact ha⟩
    · rw [hOpen] at hOpen'
      simp only [Prod.mk.injEq, Except.ok.injEq] at hOpen'
      obtain ⟨rfl, rfl⟩ := hOpen'
      rw [hHash] at hHash'
      simp only [Prod.mk.injEq, true_and] at hHash'
      obtain ⟨rfl, rfl⟩ := hHash'
      rw [hFound] at hLookup'
      simp at hLookup'
  · intro created hmem
    rcases processFile_cases lib env fp w with ⟨hin, -⟩ | ⟨rawFile, w1, w2, w3, hOpen, hHash,
      hLookup, -⟩
    · obtain ⟨calls, ht, ha⟩ := hin
      rw [newCalls_append w _ calls ht] at hmem
      exact Bool.noConfusion (ha _ hmem)
    · exact ⟨rawFile, w1, w2, w3, hOpen, hHash, hLookup⟩
  · rw [processFile_returns_idle]
    rfl
  · intro hDistinct
    have h1 := processFile_hashes_nodup lib env fp w hDistinct
    exact ⟨h1, fun again => processFile_hashes_nodup lib env again _ h1⟩

/-- C11, on the world with the scanned image and an empty store: the first ingestion of
`inbox/scan.png` stores one document, with the digest of the bytes as its hash; the
second ingestion of the same file only opens, hashes, looks up and closes, and the
store still holds that one hash. -/
theorem processFile_idempotent_witness :
    (storedHashes (scanWorld (fun _ => false))).Nodup ∧
      storedHashes (processFile refLib refEnv scanProcessor (scanWorld (fun _ => false))).2 =
        ["sha:scanned bytes"] ∧
      newCalls (processFile refLib refEnv scanProcessor (scanWorld (fun _ => false))).2
          (processFile refLib refEnv scanProcessor
            (processFile refLib refEnv scanProcessor (scanWorld (fun _ => false))).2).2 =
        [.Open "inbox/scan.png", .GetHash "inbox/scan.png",
          .DocumentGetByHash "sha:scanned bytes", .Close "inbox/scan.png"] ∧
      storedHashes
          (processFile refLib refEnv scanProcessor
            (processFile refLib refEnv scanProcessor (scanWorld (fun _ => false))).2).2 =
        ["sha:scanned bytes"] ∧
      (storedHashes
          (processFile refLib refEnv scanProcessor
            (processFile refLib refEnv scanProcessor
              (scanWorld (fun _ => false))).2).2).Nodup :=
  ⟨by decide, by decide, by decide, by decide,
    ((processFile_idempotent refLib refEnv scanProcessor (scanWorld (fun _ => false))).2.2.2
      (by decide)).2 scanProcessor⟩

end Virtualpaper
